import Mathlib

/-!
Verification of the route-optimization core of the optimalRoutes repository.

Each Python component is shallowly embedded as a Lean definition:

* Python floats are modelled as real numbers (for the geodesic code, which
  uses trigonometry) or as rationals (for the purely arithmetic engine code),
  with exact arithmetic; machine rounding is not modelled.
* Python dicts keyed by id strings become total functions or association
  lists; dict.get with a default becomes Option.getD.
* Randomness (random.sample, random.random, ...) and remote I/O (HTTP calls)
  become explicit oracle parameters.
* Exceptions become Option/Except results.

Sections follow the source layout:
  Geo   - api/models/location.py (Location.distance_to)
  Part  - RouteOptimizer._assign_orders_to_depots and
          _create_location_from_dict (api/services/route_optimizer.py)
  NN    - RouteOptimizer._optimize_with_nearest_neighbor,
          _optimize_route_order, _simple_distribution
  Osrm  - RouteOptimizer._compute_osrm_distance_matrix,
          _get_osrm_matrix_batch
  Cp    - RouteOptimizer._optimize_with_or_tools /
          _optimize_with_or_tools_multi_depot model setup
  GA    - GeneticOptimizer._calculate_fitness, _select_parents
          (api/services/genetic_optimizer.py)
  Arb   - the optimize_routes endpoint loop (api/routes/route.py),
          pydantic RouteCreate validation (api/schemas/route.py) and
          RouteService.create_route (api/services/route_service.py)
-/

namespace OptRoutes

/-! ## Geo: haversine distance (api/models/location.py) -/

/-- A Location row: latitude/longitude are nullable columns, so they are
modelled as optional reals (Python floats modelled as reals). -/
structure Location where
  latitude : Option ℝ
  longitude : Option ℝ

/-- The haversine formula exactly as written in Location.distance_to:
radians conversion, sin/cos half-angle form, 2*asin(sqrt a), earth radius
6371 km. -/
noncomputable def haversineKm (lat1 lon1 lat2 lon2 : ℝ) : ℝ :=
  let lat1_rad := lat1 * (Real.pi / 180)
  let lon1_rad := lon1 * (Real.pi / 180)
  let lat2_rad := lat2 * (Real.pi / 180)
  let lon2_rad := lon2 * (Real.pi / 180)
  let dlat := lat2_rad - lat1_rad
  let dlon := lon2_rad - lon1_rad
  let a := Real.sin (dlat / 2) ^ 2 +
    Real.cos lat1_rad * Real.cos lat2_rad * Real.sin (dlon / 2) ^ 2
  let c := 2 * Real.arcsin (Real.sqrt a)
  6371.0 * c

/-- Location.distance_to: returns 0.0 when the other location is absent or
any of the four coordinates is None, otherwise runs the haversine formula. -/
noncomputable def Location.distanceTo (self : Location) (other : Option Location) : ℝ :=
  match other with
  | none => 0
  | some o =>
    match self.latitude, self.longitude, o.latitude, o.longitude with
    | some lat1, some lon1, some lat2, some lon2 => haversineKm lat1 lon1 lat2 lon2
    | _, _, _, _ => 0

theorem haversineKm_nonneg (lat1 lon1 lat2 lon2 : ℝ) :
    0 ≤ haversineKm lat1 lon1 lat2 lon2 := by
  have h : ∀ x : ℝ, 0 ≤ 6371.0 * (2 * Real.arcsin (Real.sqrt x)) := fun x =>
    mul_nonneg (by norm_num)
      (mul_nonneg (by norm_num) (Real.arcsin_nonneg.mpr (Real.sqrt_nonneg x)))
  exact h _

theorem haversineKm_self (lat lon : ℝ) : haversineKm lat lon lat lon = 0 := by
  unfold haversineKm
  simp [sub_self, Real.sqrt_zero, Real.arcsin_zero]

theorem distanceTo_nonneg (l : Location) (o : Option Location) :
    0 ≤ l.distanceTo o := by
  obtain ⟨la, lo⟩ := l
  cases o with
  | none => simp [Location.distanceTo]
  | some o =>
    obtain ⟨oa, ob⟩ := o
    cases la <;> cases lo <;> cases oa <;> cases ob <;>
      simp [Location.distanceTo, haversineKm_nonneg]

theorem distanceTo_self (l : Location) : l.distanceTo (some l) = 0 := by
  obtain ⟨la, lo⟩ := l
  cases la <;> cases lo <;> simp [Location.distanceTo, haversineKm_self]

/-! ## Part: order-to-depot partitioner
(RouteOptimizer._assign_orders_to_depots, route_optimizer.py lines 1090-1145,
with _create_location_from_dict, lines 560-583) -/

/-- The contents of a location dict: the values of the latitude/longitude
keys as fetched by dict.get, each possibly absent. -/
structure LocRaw where
  latitude : Option ℝ
  longitude : Option ℝ

/-- A location dict argument: none models the empty/missing dict (falsy in
Python), some holds the fetched fields. -/
abbrev LocDict := Option LocRaw

/-- RouteOptimizer._create_location_from_dict: an empty dict gives None,
otherwise a Location carrying whatever the dict held (the Location
constructor does not validate, so it never raises here). -/
def createLocationFromDict : LocDict → Option Location
  | none => none
  | some r => some ⟨r.latitude, r.longitude⟩

/-- An order as seen by the partitioner: id plus its location dict. -/
structure PartOrder where
  id : String
  location : LocDict

/-- A depot as seen by the partitioner. -/
structure PartDepot where
  id : String
  location : LocDict

/-- One step of the _assign_orders_to_depots scan: depots with an unusable
location are skipped, otherwise the strictly closer depot replaces the
current best. The Option in the state models the float infinity start of
min_distance. -/
noncomputable def nearestStep (oloc : Location) (st : String × Option ℝ)
    (d : PartDepot) : String × Option ℝ :=
  match createLocationFromDict d.location with
  | none => st
  | some dl =>
    let dist := oloc.distanceTo (some dl)
    match st.2 with
    | none => (d.id, some dist)
    | some m => if dist < m then (d.id, some dist) else st

/-- The inner scan of _assign_orders_to_depots: starting from
(first depot id, min_distance = infinity), fold nearestStep over the
depot list. -/
noncomputable def nearestDepotId (oloc : Location) (d0id : String)
    (depots : List PartDepot) : String :=
  (depots.foldl (nearestStep oloc) (d0id, none)).1

/-- Straight-line distance from an order location to a depot record, as the
scan computes it. -/
noncomputable def ddist (oloc : Location) (d : PartDepot) : ℝ :=
  oloc.distanceTo (createLocationFromDict d.location)

/-- Which depot id a single order is appended to: first depot when its
location dict is unusable, otherwise the nearest-depot scan. -/
noncomputable def orderChosenDepot (o : PartOrder) (d0 : PartDepot)
    (depots : List PartDepot) : String :=
  match createLocationFromDict o.location with
  | none => d0.id
  | some oloc => nearestDepotId oloc d0.id depots

/-- One iteration of the order loop of _assign_orders_to_depots: append the
order to the bucket of its chosen depot id. -/
noncomputable def bucketStep (d0 : PartDepot) (rest : List PartDepot)
    (buckets : String → List PartOrder) (o : PartOrder) : String → List PartOrder :=
  let did := orderChosenDepot o d0 (d0 :: rest)
  fun k => if k = did then buckets k ++ [o] else buckets k

/-- RouteOptimizer._assign_orders_to_depots as a bucket map: every order is
appended to the bucket of its chosen depot id. With an empty depot list the
source raises IndexError on the first order; all callers guarantee a
non-empty list, modelled here by returning empty buckets. -/
noncomputable def assignOrdersToDepots (orders : List PartOrder)
    (depots : List PartDepot) : String → List PartOrder :=
  match depots with
  | [] => fun _ => []
  | d0 :: rest => orders.foldl (bucketStep d0 rest) (fun _ => [])

/-- The orders of a list whose chosen depot is did, in order. -/
noncomputable def chosenFilter (d0 : PartDepot) (depots : List PartDepot)
    (did : String) : List PartOrder → List PartOrder
  | [] => []
  | o :: rest =>
    if orderChosenDepot o d0 depots = did then
      o :: chosenFilter d0 depots did rest
    else chosenFilter d0 depots did rest

theorem nearestStep_of_some {oloc : Location} {d : PartDepot} {dl : Location}
    (h : createLocationFromDict d.location = some dl) (st : String × Option ℝ) :
    nearestStep oloc st d =
      match st.2 with
      | none => (d.id, some (ddist oloc d))
      | some m => if ddist oloc d < m then (d.id, some (ddist oloc d)) else st := by
  unfold nearestStep ddist
  rw [h]

theorem nearestFold_stay (oloc : Location) :
    ∀ (l : List PartDepot) (bid : String) (m : ℝ),
      (∀ d ∈ l, m ≤ ddist oloc d) →
      l.foldl (nearestStep oloc) (bid, some m) = (bid, some m) := by
  intro l
  induction l with
  | nil => intro bid m _; rfl
  | cons d ds ih =>
    intro bid m hge
    have htail : ∀ x ∈ ds, m ≤ ddist oloc x := fun x hx => hge x (by simp [hx])
    cases hdl : createLocationFromDict d.location with
    | none =>
      have hskip : nearestStep oloc (bid, some m) d = (bid, some m) := by
        unfold nearestStep; rw [hdl]
      simp only [List.foldl_cons, hskip]
      exact ih bid m htail
    | some dl =>
      have hm : ¬ ddist oloc d < m := not_lt.mpr (hge d (by simp))
      simp only [List.foldl_cons, nearestStep_of_some hdl, hm, if_false]
      exact ih bid m htail

theorem nearestFold_min (oloc : Location) :
    ∀ (l : List PartDepot) (bid : String) (m : ℝ),
      (∀ d ∈ l, (createLocationFromDict d.location).isSome = true) →
      (∃ d ∈ l, ddist oloc d < m) →
      ∃ j, ∃ hj : j < l.length,
        l.foldl (nearestStep oloc) (bid, some m) =
          ((l.get ⟨j, hj⟩).id, some (ddist oloc (l.get ⟨j, hj⟩))) ∧
        ddist oloc (l.get ⟨j, hj⟩) < m ∧
        (∀ i, ∀ hi : i < l.length,
          ddist oloc (l.get ⟨j, hj⟩) ≤ ddist oloc (l.get ⟨i, hi⟩)) ∧
        (∀ i, ∀ hi : i < l.length, i < j →
          ddist oloc (l.get ⟨j, hj⟩) < ddist oloc (l.get ⟨i, hi⟩)) := by
  intro l
  induction l with
  | nil => intro bid m _ hex; simp at hex
  | cons d ds ih =>
    intro bid m hloc hex
    obtain ⟨dl, hdl⟩ := Option.isSome_iff_exists.mp (hloc d (by simp))
    have hlocds : ∀ x ∈ ds, (createLocationFromDict x.location).isSome = true :=
      fun x hx => hloc x (by simp [hx])
    by_cases hd : ddist oloc d < m
    · -- head becomes the running best
      simp only [List.foldl_cons, nearestStep_of_some hdl, hd, if_true]
      by_cases hstay : ∀ x ∈ ds, ddist oloc d ≤ ddist oloc x
      · refine ⟨0, by simp, ?_, hd, ?_, ?_⟩
        · simpa using nearestFold_stay oloc ds d.id (ddist oloc d) hstay
        · intro i hi
          match i with
          | 0 => simp
          | i + 1 =>
            simpa using hstay (ds.get ⟨i, by simpa using hi⟩) (ds.get_mem _ _)
        · intro i hi hlt; omega
      · push_neg at hstay
        obtain ⟨x, hxmem, hxlt⟩ := hstay
        obtain ⟨j', hj', heq, hlt', hmin', hbefore'⟩ :=
          ih d.id (ddist oloc d) hlocds ⟨x, hxmem, hxlt⟩
        refine ⟨j' + 1, by simpa using Nat.succ_lt_succ hj', by simpa using heq,
          lt_trans hlt' hd, ?_, ?_⟩
        · intro i hi
          match i with
          | 0 => simpa using le_of_lt hlt'
          | i + 1 => simpa using hmin' i (by simpa using hi)
        · intro i hi hlt
          match i with
          | 0 => simpa using hlt'
          | i + 1 => simpa using hbefore' i (by simpa using hi) (by omega)
    · -- head skipped, best found in the tail
      simp only [List.foldl_cons, nearestStep_of_some hdl, hd, if_false]
      have hexds : ∃ x ∈ ds, ddist oloc x < m := by
        obtain ⟨y, hymem, hylt⟩ := hex
        rcases List.mem_cons.mp hymem with hy0 | hyds
        · exact absurd (hy0 ▸ hylt) hd
        · exact ⟨y, hyds, hylt⟩
      obtain ⟨j', hj', heq, hlt', hmin', hbefore'⟩ := ih bid m hlocds hexds
      refine ⟨j' + 1, by simpa using Nat.succ_lt_succ hj', by simpa using heq,
        hlt', ?_, ?_⟩
      · intro i hi
        match i with
        | 0 =>
          simpa using le_of_lt (lt_of_lt_of_le hlt' (not_lt.mp hd))
        | i + 1 => simpa using hmin' i (by simpa using hi)
      · intro i hi hlt
        match i with
        | 0 => simpa using lt_of_lt_of_le hlt' (not_lt.mp hd)
        | i + 1 => simpa using hbefore' i (by simpa using hi) (by omega)

theorem bucketFold_eq (d0 : PartDepot) (rest : List PartDepot) :
    ∀ (orders : List PartOrder) (buckets : String → List PartOrder) (did : String),
      (orders.foldl (bucketStep d0 rest) buckets) did =
        buckets did ++ chosenFilter d0 (d0 :: rest) did orders := by
  intro orders
  induction orders with
  | nil => intro buckets did; simp [chosenFilter]
  | cons o os ih =>
    intro buckets did
    simp only [List.foldl_cons]
    rw [ih]
    have hb : bucketStep d0 rest buckets o did =
        if did = orderChosenDepot o d0 (d0 :: rest) then buckets did ++ [o]
        else buckets did := rfl
    by_cases h : orderChosenDepot o d0 (d0 :: rest) = did
    · rw [hb, if_pos h.symm]
      simp [chosenFilter, h]
    · rw [hb, if_neg (fun hh => h hh.symm)]
      simp [chosenFilter, h]

theorem assignOrdersToDepots_eq (orders : List PartOrder) (d0 : PartDepot)
    (rest : List PartDepot) (did : String) :
    assignOrdersToDepots orders (d0 :: rest) did =
      chosenFilter d0 (d0 :: rest) did orders := by
  rw [show assignOrdersToDepots orders (d0 :: rest) =
    orders.foldl (bucketStep d0 rest) (fun _ => []) from rfl, bucketFold_eq]
  simp

theorem chosenFilter_mem {d0 : PartDepot} {depots : List PartDepot} {did : String} :
    ∀ {l : List PartOrder} {o : PartOrder}, o ∈ chosenFilter d0 depots did l →
      orderChosenDepot o d0 depots = did ∧ o ∈ l := by
  intro l
  induction l with
  | nil => intro o h; simp [chosenFilter] at h
  | cons x xs ih =>
    intro o h
    unfold chosenFilter at h
    by_cases hx : orderChosenDepot x d0 depots = did
    · rw [if_pos hx] at h
      rcases List.mem_cons.mp h with h0 | hrest
      · exact ⟨h0 ▸ hx, by simp [h0]⟩
      · obtain ⟨h1, h2⟩ := ih hrest
        exact ⟨h1, by simp [h2]⟩
    · rw [if_neg hx] at h
      obtain ⟨h1, h2⟩ := ih h
      exact ⟨h1, by simp [h2]⟩

theorem chosenFilter_all_eq {d0 : PartDepot} {depots : List PartDepot} {did : String} :
    ∀ {l : List PartOrder}, (∀ o ∈ l, orderChosenDepot o d0 depots = did) →
      chosenFilter d0 depots did l = l := by
  intro l
  induction l with
  | nil => intro _; rfl
  | cons x xs ih =>
    intro h
    unfold chosenFilter
    rw [if_pos (h x (by simp))]
    rw [ih (fun o ho => h o (by simp [ho]))]

theorem chosenFilter_all_ne {d0 : PartDepot} {depots : List PartDepot}
    {did did' : String} (hne : did' ≠ did) :
    ∀ {l : List PartOrder}, (∀ o ∈ l, orderChosenDepot o d0 depots = did) →
      chosenFilter d0 depots did' l = [] := by
  intro l
  induction l with
  | nil => intro _; rfl
  | cons x xs ih =>
    intro h
    unfold chosenFilter
    rw [if_neg (fun hh => hne ((h x (by simp)) ▸ hh).symm)]
    exact ih (fun o ho => h o (by simp [ho]))

/-- C7. The depot partitioner: (a) with a usable order location and all depot
locations usable, the chosen depot attains the minimum haversine distance and
is the first depot attaining it; (b) an order whose location dict cannot be
turned into a Location goes to the first depot; (c) repartitioning any output
bucket reproduces that bucket and leaves every other bucket empty (the
partitioner is a pure function of its arguments, so it is deterministic). -/
theorem depot_partitioner_spec (orders : List PartOrder) (d0 : PartDepot)
    (rest : List PartDepot) :
    (∀ (o : PartOrder) (oloc : Location),
      createLocationFromDict o.location = some oloc →
      (∀ d ∈ d0 :: rest, (createLocationFromDict d.location).isSome = true) →
      ∃ j, ∃ hj : j < (d0 :: rest).length,
        orderChosenDepot o d0 (d0 :: rest) = ((d0 :: rest).get ⟨j, hj⟩).id ∧
        (∀ i, ∀ hi : i < (d0 :: rest).length,
          ddist oloc ((d0 :: rest).get ⟨j, hj⟩) ≤ ddist oloc ((d0 :: rest).get ⟨i, hi⟩)) ∧
        (∀ i, ∀ hi : i < (d0 :: rest).length, i < j →
          ddist oloc ((d0 :: rest).get ⟨j, hj⟩) < ddist oloc ((d0 :: rest).get ⟨i, hi⟩))) ∧
    (∀ o : PartOrder, createLocationFromDict o.location = none →
      orderChosenDepot o d0 (d0 :: rest) = d0.id) ∧
    (∀ did did' : String, did' ≠ did →
      assignOrdersToDepots (assignOrdersToDepots orders (d0 :: rest) did)
          (d0 :: rest) did = assignOrdersToDepots orders (d0 :: rest) did ∧
      assignOrdersToDepots (assignOrdersToDepots orders (d0 :: rest) did)
          (d0 :: rest) did' = []) := by
  refine ⟨?_, ?_, ?_⟩
  · intro o oloc holoc hdep
    have hchosen : orderChosenDepot o d0 (d0 :: rest) = nearestDepotId oloc d0.id (d0 :: rest) := by
      unfold orderChosenDepot; rw [holoc]
    obtain ⟨dl0, hdl0⟩ := Option.isSome_iff_exists.mp (hdep d0 (by simp))
    have hfold : (d0 :: rest).foldl (nearestStep oloc) (d0.id, none) =
        rest.foldl (nearestStep oloc) (d0.id, some (ddist oloc d0)) := by
      simp only [List.foldl_cons, nearestStep_of_some hdl0]
    have hrestloc : ∀ d ∈ rest, (createLocationFromDict d.location).isSome = true :=
      fun d hd => hdep d (by simp [hd])
    by_cases hstay : ∀ x ∈ rest, ddist oloc d0 ≤ ddist oloc x
    · refine ⟨0, by simp, ?_, ?_, ?_⟩
      · rw [hchosen]
        unfold nearestDepotId
        rw [hfold, nearestFold_stay oloc rest d0.id (ddist oloc d0) hstay]
        rfl
      · intro i hi
        match i with
        | 0 => simp
        | i + 1 => simpa using hstay (rest.get ⟨i, by simpa using hi⟩) (rest.get_mem _ _)
      · intro i hi hlt; omega
    · push_neg at hstay
      obtain ⟨x, hxmem, hxlt⟩ := hstay
      obtain ⟨j', hj', heq, hlt', hmin', hbefore'⟩ :=
        nearestFold_min oloc rest d0.id (ddist oloc d0) hrestloc ⟨x, hxmem, hxlt⟩
      refine ⟨j' + 1, by simpa using Nat.succ_lt_succ hj', ?_, ?_, ?_⟩
      · rw [hchosen]
        unfold nearestDepotId
        rw [hfold, heq]
        rfl
      · intro i hi
        match i with
        | 0 => simpa using le_of_lt hlt'
        | i + 1 => simpa using hmin' i (by simpa using hi)
      · intro i hi hlt
        match i with
        | 0 => simpa using hlt'
        | i + 1 => simpa using hbefore' i (by simpa using hi) (by omega)
  · intro o holoc
    unfold orderChosenDepot
    rw [holoc]
  · intro did did' hne
    have hmem : ∀ o ∈ assignOrdersToDepots orders (d0 :: rest) did,
        orderChosenDepot o d0 (d0 :: rest) = did := by
      intro o ho
      rw [assignOrdersToDepots_eq] at ho
      exact (chosenFilter_mem ho).1
    constructor
    · rw [assignOrdersToDepots_eq _ _ _ did, chosenFilter_all_eq hmem]
    · rw [assignOrdersToDepots_eq _ _ _ did', chosenFilter_all_ne hne hmem]

/-- Witness for C7 at concrete inputs: one depot at (1,2), one order at (1,2),
one order with an unusable location, and idempotent rebucketing. -/
theorem depot_partitioner_spec_witness :
    orderChosenDepot ⟨"o1", some ⟨some 1, some 2⟩⟩ ⟨"d0", some ⟨some 1, some 2⟩⟩
        [⟨"d0", some ⟨some 1, some 2⟩⟩] = "d0" ∧
    orderChosenDepot ⟨"o2", none⟩ ⟨"d0", some ⟨some 1, some 2⟩⟩
        [⟨"d0", some ⟨some 1, some 2⟩⟩] = "d0" ∧
    assignOrdersToDepots
        (assignOrdersToDepots [⟨"o1", some ⟨some 1, some 2⟩⟩]
          [⟨"d0", some ⟨some 1, some 2⟩⟩] "d0")
        [⟨"d0", some ⟨some 1, some 2⟩⟩] "other" = [] := by
  have h := depot_partitioner_spec [⟨"o1", some ⟨some 1, some 2⟩⟩]
    ⟨"d0", some ⟨some 1, some 2⟩⟩ []
  refine ⟨?_, ?_, ?_⟩
  · obtain ⟨j, hj, heq, -, -⟩ := h.1 ⟨"o1", some ⟨some 1, some 2⟩⟩ ⟨some 1, some 2⟩ rfl
      (by intro d hd; simp at hd; subst hd; rfl)
    have hj0 : j = 0 := by simpa using hj
    subst hj0
    simpa using heq
  · exact h.2.1 ⟨"o2", none⟩ rfl
  · exact (h.2.2 "d0" "other" (by decide)).2

/-- C10. Location.distance_to is total: it returns exactly 0 when the other
location is absent or any coordinate is None, is non-negative on full
coordinates, gives 0 from a location to itself, and consequently an order
whose location dict exists but has both coordinates None is at distance 0
from every depot and is bucketed to the first depot by the strict-less
tie-break of the partitioner. -/
theorem distance_to_total_spec :
    (∀ l : Location, l.distanceTo none = 0) ∧
    (∀ l o : Location,
      l.latitude = none ∨ l.longitude = none ∨ o.latitude = none ∨ o.longitude = none →
      l.distanceTo (some o) = 0) ∧
    (∀ (l : Location) (o : Option Location), 0 ≤ l.distanceTo o) ∧
    (∀ l : Location, l.distanceTo (some l) = 0) ∧
    (∀ (o : PartOrder) (d0 : PartDepot) (rest : List PartDepot) (dl0 : Location),
      o.location = some ⟨none, none⟩ →
      createLocationFromDict d0.location = some dl0 →
      (∀ d ∈ d0 :: rest, Location.distanceTo ⟨none, none⟩
          (createLocationFromDict d.location) = 0) ∧
      orderChosenDepot o d0 (d0 :: rest) = d0.id) := by
  refine ⟨fun l => rfl, ?_, distanceTo_nonneg, distanceTo_self, ?_⟩
  · intro l o h
    obtain ⟨la, lo⟩ := l
    obtain ⟨oa, ob⟩ := o
    cases la <;> cases lo <;> cases oa <;> cases ob <;>
      simp_all [Location.distanceTo]
  · intro o d0 rest dl0 holoc hd0
    have hzero : ∀ d : PartDepot, ddist ⟨none, none⟩ d = 0 := by
      intro d
      unfold ddist
      cases createLocationFromDict d.location with
      | none => rfl
      | some dl => rfl
    constructor
    · intro d _
      have := hzero d
      unfold ddist at this
      exact this
    · unfold orderChosenDepot
      rw [holoc]
      show nearestDepotId ⟨none, none⟩ d0.id (d0 :: rest) = d0.id
      unfold nearestDepotId
      have hfold : (d0 :: rest).foldl (nearestStep ⟨none, none⟩) (d0.id, none) =
          rest.foldl (nearestStep ⟨none, none⟩)
            (d0.id, some (ddist ⟨none, none⟩ d0)) := by
        simp only [List.foldl_cons, nearestStep_of_some hd0]
      rw [hfold, nearestFold_stay _ rest d0.id _ (fun d _ => by rw [hzero d, hzero d0])]

/-- Witness for C10 at concrete inputs. -/
theorem distance_to_total_spec_witness :
    Location.distanceTo ⟨some 1, none⟩ (some ⟨some 2, some 3⟩) = 0 ∧
    orderChosenDepot ⟨"o", some ⟨none, none⟩⟩ ⟨"d0", some ⟨some 5, some 6⟩⟩
      [⟨"d0", some ⟨some 5, some 6⟩⟩, ⟨"d1", some ⟨some 7, some 8⟩⟩] = "d0" := by
  constructor
  · exact distance_to_total_spec.2.1 ⟨some 1, none⟩ ⟨some 2, some 3⟩ (Or.inr (Or.inl rfl))
  · exact (distance_to_total_spec.2.2.2.2 ⟨"o", some ⟨none, none⟩⟩
      ⟨"d0", some ⟨some 5, some 6⟩⟩ [⟨"d1", some ⟨some 7, some 8⟩⟩]
      ⟨some 5, some 6⟩ rfl rfl).2

/-! ## GA: genetic optimizer fitness and parent selection
(GeneticOptimizer._calculate_fitness, genetic_optimizer.py lines 813-862, and
_select_parents, lines 864-887) -/

/-- One stop of a GA route dict. -/
structure GAPoint where
  order_id : String
  sequence : Int
deriving DecidableEq

/-- A GA route dict: courier, depot, stops, cached distance and load. -/
structure GARoute where
  courier_id : String
  depot_id : String
  points : List GAPoint
  total_distance : ℚ
  total_load : Int
deriving DecidableEq

/-- The courier fields read by the GA. -/
structure GACourier where
  max_capacity : Option Int
  max_distance : Option ℚ
deriving DecidableEq

/-- The GeneticOptimizer state consumed by _calculate_fitness: the courier
dict (direct indexing, so a missing key raises) and the key set of
self.order_indices (the pending orders registered during _initialize_data). -/
structure GAState where
  couriers : String → Option GACourier
  orderIndexKeys : Finset String

/-- The set of order ids referenced by any route of a solution. -/
def assignedOrders (routes : List GARoute) : Finset String :=
  routes.foldl (fun s r => r.points.foldl (fun s2 p => insert p.order_id s2) s) ∅

/-- GeneticOptimizer._calculate_fitness: infinite fitness (none) for an empty
route list; otherwise total distance plus 10 per route plus 1000 per
unassigned order plus 10000 per km of per-route distance violation. The
courier dict is indexed directly, so an unknown courier id is a KeyError,
modelled as the error case. -/
def calculateFitness (st : GAState) (routes : List GARoute) : Except Unit (Option ℚ) :=
  if routes.isEmpty then .ok none
  else
    let total_distance := routes.foldl (fun a r => a + r.total_distance) 0
    let num_routes := routes.length
    let unassigned := st.orderIndexKeys \ assignedOrders routes
    let unassigned_penalty := (unassigned.card : ℚ) * 1000
    (routes.foldlM (fun (acc : ℚ) (r : GARoute) =>
      match st.couriers r.courier_id with
      | none => Except.error ()
      | some c =>
        let maxd := c.max_distance.getD 50
        if maxd < r.total_distance then
          Except.ok (acc + (r.total_distance - maxd) * 10000)
        else Except.ok acc) (0 : ℚ)).map
    (fun viol => some (total_distance + (num_routes : ℚ) * 10 + unassigned_penalty + viol))

/-- The max-route-distance the fitness function reads for a route, defaulting
to 50 as in courier_data.get. -/
def routeMaxDistance (st : GAState) (r : GARoute) : ℚ :=
  (st.couriers r.courier_id).elim 0 (fun c => c.max_distance.getD 50)

theorem foldl_add_eq_sum (f : GARoute → ℚ) :
    ∀ (l : List GARoute) (a : ℚ), l.foldl (fun acc x => acc + f x) a = a + (l.map f).sum := by
  intro l
  induction l with
  | nil => intro a; simp
  | cons x xs ih => intro a; simp [ih, add_assoc]

theorem violFold_eq (st : GAState) :
    ∀ (l : List GARoute) (a : ℚ), (∀ r ∈ l, (st.couriers r.courier_id).isSome = true) →
      (l.foldlM (fun (acc : ℚ) (r : GARoute) =>
        match st.couriers r.courier_id with
        | none => Except.error ()
        | some c =>
          let maxd := c.max_distance.getD 50
          if maxd < r.total_distance then
            Except.ok (acc + (r.total_distance - maxd) * 10000)
          else Except.ok acc) a : Except Unit ℚ) =
      .ok (a + (l.map (fun r => max 0 (r.total_distance - routeMaxDistance st r) * 10000)).sum) := by
  intro l
  induction l with
  | nil => intro a _; simp; rfl
  | cons r rs ih =>
    intro a hc
    obtain ⟨c, hcr⟩ := Option.isSome_iff_exists.mp (hc r (by simp))
    have hrest : ∀ x ∈ rs, (st.couriers x.courier_id).isSome = true :=
      fun x hx => hc x (by simp [hx])
    have hmaxd : routeMaxDistance st r = c.max_distance.getD 50 := by
      unfold routeMaxDistance; rw [hcr]; rfl
    simp only [List.foldlM_cons, hcr]
    by_cases hv : c.max_distance.getD 50 < r.total_distance
    · rw [if_pos hv]
      show rs.foldlM _ _ = _
      rw [ih _ hrest]
      have hmax : max 0 (r.total_distance - routeMaxDistance st r) =
          r.total_distance - c.max_distance.getD 50 := by
        rw [hmaxd]; exact max_eq_right (by linarith)
      rw [List.map_cons, List.sum_cons, hmax]
      exact congrArg Except.ok (by ring)
    · rw [if_neg hv]
      show rs.foldlM _ _ = _
      rw [ih _ hrest]
      have hmax : max 0 (r.total_distance - routeMaxDistance st r) = 0 := by
        rw [hmaxd]; exact max_eq_left (by linarith [not_lt.mp hv])
      rw [List.map_cons, List.sum_cons, hmax]
      exact congrArg Except.ok (by ring)

/-- C4. GA fitness of a non-empty solution whose courier ids are all known
equals total route distance, plus 10 per route, plus 1000 per pending order
of order_indices unreferenced by any route, plus 10000 per km of positive
excess of a route's distance over its courier's max route distance; the
empty solution has infinite fitness (modelled as none). -/
theorem ga_fitness_spec (st : GAState) (routes : List GARoute)
    (hne : routes ≠ [])
    (hc : ∀ r ∈ routes, (st.couriers r.courier_id).isSome = true) :
    calculateFitness st routes =
      .ok (some ((routes.map (fun r => r.total_distance)).sum +
        (routes.length : ℚ) * 10 +
        ((st.orderIndexKeys \ assignedOrders routes).card : ℚ) * 1000 +
        (routes.map (fun r =>
          max 0 (r.total_distance - routeMaxDistance st r) * 10000)).sum)) ∧
    calculateFitness st [] = .ok none := by
  constructor
  · unfold calculateFitness
    rw [if_neg (by simpa using hne)]
    rw [violFold_eq st routes 0 hc]
    rw [foldl_add_eq_sum]
    simp [Except.map]
  · rfl

/-- Witness for C4: one route of distance 7 for a courier capped at 5 km,
with a second pending order unassigned: fitness is
7 + 10 + 1000 + 10000*2 = 21017. -/
theorem ga_fitness_spec_witness :
    calculateFitness
      ⟨fun s => if s = "c1" then some ⟨some 10, some 5⟩ else none, {"o1", "o2"}⟩
      [⟨"c1", "d", [⟨"o1", 0⟩], 7, 1⟩] = .ok (some 21017) := by
  have h := (ga_fitness_spec
    ⟨fun s => if s = "c1" then some ⟨some 10, some 5⟩ else none, {"o1", "o2"}⟩
    [⟨"c1", "d", [⟨"o1", 0⟩], 7, 1⟩] (by simp)
    (by intro r hr; simp at hr; subst hr; rfl)).1
  rw [h]
  have hcard : (({"o1", "o2"} : Finset String) \ assignedOrders
      [⟨"c1", "d", [⟨"o1", 0⟩], 7, 1⟩]).card = 1 := by decide
  rw [hcard]
  norm_num [routeMaxDistance]

/-- A GA individual: a solution plus its cached fitness (none models the
float infinity given to empty solutions). -/
structure Individual where
  routes : List GARoute
  fitness : Option ℚ
deriving DecidableEq, Inhabited

/-- The float comparison ind.fitness < other.fitness with none as infinity. -/
def fitLt : Option ℚ → Option ℚ → Bool
  | some a, some b => a < b
  | some _, none => true
  | none, _ => false

/-- Fitness viewed in WithTop, for order reasoning about fitLt. -/
def fitVal : Option ℚ → WithTop ℚ
  | none => ⊤
  | some a => (a : WithTop ℚ)

theorem fitLt_iff (a b : Option ℚ) : fitLt a b = true ↔ fitVal a < fitVal b := by
  cases a <;> cases b <;> simp [fitLt, fitVal]

/-- tournament_size = max(2, int(len(population) * 0.1)). Python truncates the
float product toward zero; for every realistic population size that equals
floor division by 10 (at n = 25 the float product is exactly 2.5 and int
gives 2). -/
def tournamentSize (n : Nat) : Nat := max 2 (n / 10)

/-- Modelled from the spec: tournament size = max(2, ceil(0.1 * population)),
following the words of the specification for comparison with the code. -/
def specTournamentSize (n : Nat) : Nat := max 2 ⌈(0.1 : ℚ) * n⌉₊

/-- min(tournament, key=fitness): first individual attaining the minimum
fitness. Python min raises on an empty sequence; random.sample always hands
a sequence of length tournament_size ≥ 2, so the empty case is dead code
(modelled by default). -/
def tournWinner (t : List Individual) : Individual :=
  match t with
  | [] => default
  | x :: xs => xs.foldl (fun w y => if fitLt y.fitness w.fitness then y else w) x

/-- GeneticOptimizer._select_parents: one tournament per population slot;
random.sample is modelled by the oracle argument, invoked with the slot
index and the tournament size. -/
def selectParents (pop : List Individual)
    (sample : Nat → Nat → List Individual) : List Individual :=
  (List.range pop.length).map (fun i => tournWinner (sample i (tournamentSize pop.length)))

theorem tournFold_spec (xs : List Individual) :
    ∀ w : Individual,
      (let res := xs.foldl (fun w y => if fitLt y.fitness w.fitness then y else w) w
      (res = w ∨ res ∈ xs) ∧ fitVal res.fitness ≤ fitVal w.fitness ∧
        ∀ y ∈ xs, fitVal res.fitness ≤ fitVal y.fitness) := by
  induction xs with
  | nil => intro w; exact ⟨Or.inl rfl, le_refl _, by simp⟩
  | cons y ys ih =>
    intro w
    simp only [List.foldl_cons]
    by_cases hy : fitLt y.fitness w.fitness
    · rw [if_pos hy]
      obtain ⟨hmem, hle, hall⟩ := ih y
      have hyw : fitVal y.fitness ≤ fitVal w.fitness :=
        le_of_lt ((fitLt_iff _ _).mp hy)
      refine ⟨?_, le_trans hle hyw, ?_⟩
      · rcases hmem with h | h
        · exact Or.inr (by simp [h])
        · exact Or.inr (by simp [h])
      · intro z hz
        rcases List.mem_cons.mp hz with h | h
        · exact h ▸ hle
        · exact hall z h
    · rw [if_neg hy]
      obtain ⟨hmem, hle, hall⟩ := ih w
      have hwy : fitVal w.fitness ≤ fitVal y.fitness := by
        have := (fitLt_iff y.fitness w.fitness).not.mp (by simpa using hy)
        exact le_of_not_lt this
      refine ⟨?_, hle, ?_⟩
      · rcases hmem with h | h
        · exact Or.inl h
        · exact Or.inr (by simp [h])
      · intro z hz
        rcases List.mem_cons.mp hz with h | h
        · exact h ▸ le_trans hle hwy
        · exact hall z h

theorem tournWinner_spec (x : Individual) (xs : List Individual) :
    tournWinner (x :: xs) ∈ x :: xs ∧
      ∀ y ∈ x :: xs, fitLt y.fitness (tournWinner (x :: xs)).fitness = false := by
  obtain ⟨hmem, hle, hall⟩ := tournFold_spec xs x
  constructor
  · unfold tournWinner
    rcases hmem with h | h
    · simp [h]
    · simp [h]
  · intro y hy
    have hres : fitVal (tournWinner (x :: xs)).fitness ≤ fitVal y.fitness := by
      rcases List.mem_cons.mp hy with h | h
      · exact h ▸ hle
      · exact hall y h
    have : ¬ fitLt y.fitness (tournWinner (x :: xs)).fitness = true := by
      rw [fitLt_iff]
      exact not_lt.mpr hres
    simpa using this

/-- C8 (amended). Parent selection fills exactly population-many mating-pool
slots; each slot is the first minimum-fitness member of its sampled
tournament; the tournament size requested from random.sample is
max(2, floor(0.1 * population)) (the source truncates, it does not take the
ceiling). -/
theorem ga_selection_spec (pop : List Individual)
    (sample : Nat → Nat → List Individual)
    (hpop : 2 ≤ pop.length)
    (hs : ∀ i < pop.length, sample i (tournamentSize pop.length) ≠ []) :
    (selectParents pop sample).length = pop.length ∧
    tournamentSize pop.length = max 2 (pop.length / 10) ∧
    ∀ i, ∀ hi : i < pop.length,
      (selectParents pop sample).getD i default ∈ sample i (tournamentSize pop.length) ∧
      ∀ y ∈ sample i (tournamentSize pop.length),
        fitLt y.fitness ((selectParents pop sample).getD i default).fitness = false := by
  refine ⟨by simp [selectParents], rfl, ?_⟩
  intro i hi
  have hget : (selectParents pop sample).getD i default =
      tournWinner (sample i (tournamentSize pop.length)) := by
    unfold selectParents
    rw [List.getD_eq_getElem?_getD]
    rw [List.getElem?_map]
    simp [List.getElem?_range hi]
  rw [hget]
  cases htl : sample i (tournamentSize pop.length) with
  | nil => exact absurd htl (hs i hi)
  | cons x xs =>
    have h := tournWinner_spec x xs
    exact ⟨h.1, h.2⟩

/-- Witness for C8 at a concrete population of two individuals and a
constant sampling oracle. -/
theorem ga_selection_spec_witness :
    (selectParents
      [⟨[], some 3⟩, ⟨[], some 1⟩]
      (fun _ _ => [⟨[], some 3⟩, ⟨[], some 1⟩])).length = 2 ∧
    (selectParents
      [⟨[], some 3⟩, ⟨[], some 1⟩]
      (fun _ _ => [⟨[], some 3⟩, ⟨[], some 1⟩])).getD 0 default = ⟨[], some 1⟩ := by
  have h := ga_selection_spec
    [⟨[], some 3⟩, ⟨[], some 1⟩]
    (fun _ _ => [⟨[], some 3⟩, ⟨[], some 1⟩])
    (by decide) (by intro i _; simp)
  refine ⟨h.1, ?_⟩
  have h0 := (h.2.2 0 (by decide)).1
  have h1 := (h.2.2 0 (by decide)).2
  decide

/-- Counterexample to C8 as stated: at population size 25 the code requests
tournaments of size max(2, int(25 * 0.1)) = 2 (the float product is exactly
2.5 and int truncates), while the spec formula max(2, ceil(0.1 * 25))
demands 3. -/
theorem ga_tournament_size_cex :
    tournamentSize 25 = 2 ∧ specTournamentSize 25 = 3 ∧
      tournamentSize 25 ≠ specTournamentSize 25 := by
  have hceil : ⌈(0.1 : ℚ) * ((25 : Nat) : ℚ)⌉₊ = 3 := by
    rw [show (0.1 : ℚ) * ((25 : Nat) : ℚ) = 5 / 2 by norm_num]
    rw [Nat.ceil_eq_iff (by norm_num)]
    norm_num
  have hspec : specTournamentSize 25 = 3 := by
    unfold specTournamentSize
    rw [hceil]
    decide
  refine ⟨rfl, hspec, ?_⟩
  rw [hspec]
  decide

/-! ## Arb: the optimize_routes endpoint loop (api/routes/route.py lines
252-320), pydantic RouteCreate validation (api/schemas/route.py) and
RouteService.create_route (api/services/route_service.py lines 20-140).
Engine proposals are stringly-typed dicts; UUID parsing is the oracle
parse (none models ValueError/TypeError); database lookups are the find
oracles. -/

/-- A point of an engine-proposed route dict. -/
structure RawPoint where
  order_id : String
  sequence : Int
deriving DecidableEq

/-- An engine-proposed route dict, shared output shape of all engines. -/
structure ProposedRoute where
  courier_id : String
  depot_id : String
  total_distance : ℚ
  total_load : Int
  total_weight : ℚ
  points : List RawPoint
deriving DecidableEq

/-- A validated route point: parsed order UUID (modelled as Nat) plus the
sequence carried over unchanged from the proposal. -/
structure RoutePt where
  order_id : Nat
  sequence : Int
deriving DecidableEq

/-- Order lifecycle states. -/
inductive PyOrderStatus
  | pending | assigned | in_transit | delivered | cancelled
deriving DecidableEq

/-- The order fields create_route reads from the database. -/
structure DbOrder where
  items_count : Int
  status : PyOrderStatus
deriving DecidableEq

/-- The courier fields create_route reads from the database. -/
structure DbCourier where
  depot_id : Nat
  max_capacity : Int
deriving DecidableEq

/-- Oracles of the endpoint: UUID parsing and database lookups. -/
structure ArbiterEnv where
  parse : String → Option Nat
  findOrder : Nat → Option DbOrder
  findCourier : Nat → Option DbCourier
  findDepot : Nat → Bool

/-- The payload of a RouteCreate (and of the resulting RouteResponse, whose
generated id and timestamp are irrelevant here). -/
structure RouteCreateData where
  courier_id : Nat
  depot_id : Nat
  total_distance : ℚ
  total_load : Int
  total_weight : ℚ
  points : List RoutePt
deriving DecidableEq

/-- Python min() over a list of ints (never called on [] by the validator). -/
def pyMinInt : List Int → Int
  | [] => 0
  | x :: xs => xs.foldl min x

/-- Python max() over a list of ints (never called on [] by the validator). -/
def pyMaxInt : List Int → Int
  | [] => 0
  | x :: xs => xs.foldl max x

/-- list(range(lo, hi + 1)) over ints. -/
def seqRange (lo hi : Int) : List Int :=
  (List.range (hi + 1 - lo).toNat).map (fun k => lo + k)

/-- The consecutiveness check of RouteCreate.validate_points_sequence:
sorted(sequences) == list(range(min(sequences), max(sequences) + 1)). Note
it anchors at the minimum, not at 0. Python sorted() is modelled by the
stable structurally-recursive insertion sort. -/
def seqConsecutive (seqs : List Int) : Bool :=
  List.insertionSort (fun a b => a ≤ b) seqs ==
    seqRange (pyMinInt seqs) (pyMaxInt seqs)

/-- Pydantic validation performed when the endpoint constructs RouteCreate:
per-point sequence >= 0, non-negative totals, and for non-empty point lists
no duplicate sequences plus the consecutiveness check. -/
def routeCreateValid (d : RouteCreateData) : Bool :=
  d.points.all (fun p => decide (0 ≤ p.sequence)) &&
  decide (0 ≤ d.total_distance) && decide (0 ≤ d.total_load) &&
  decide (0 ≤ d.total_weight) &&
  (d.points.isEmpty ||
    (decide (d.points.map (fun p => p.sequence)).Nodup &&
     seqConsecutive (d.points.map (fun p => p.sequence))))

/-- RouteService._calculate_route_load: sum items_count over the points
whose order exists in the database. -/
def routeLoad (env : ArbiterEnv) (pts : List RoutePt) : Int :=
  pts.foldl (fun acc p =>
    match env.findOrder p.order_id with
    | some o => acc + o.items_count
    | none => acc) 0

/-- RouteService.create_route: courier and depot must exist, the courier
must belong to the depot, a non-empty point list must fit the courier's
max_capacity, and every point's order must exist and be PENDING; any
failure raises (none). The returned RouteResponse carries the same payload. -/
def createRoute (env : ArbiterEnv) (d : RouteCreateData) : Option RouteCreateData :=
  match env.findCourier d.courier_id with
  | none => none
  | some courier =>
    if ¬ env.findDepot d.depot_id then none
    else if courier.depot_id ≠ d.depot_id then none
    else if 0 < d.points.length ∧ ¬ routeLoad env d.points ≤ courier.max_capacity then none
    else if d.points.all (fun p =>
        match env.findOrder p.order_id with
        | some o => o.status == PyOrderStatus.pending
        | none => false)
    then some d
    else none

/-- The per-point UUID filter of the endpoint: points whose order id fails
to parse are skipped, the surviving points keep their sequence values. -/
def filterPoints (env : ArbiterEnv) (pts : List RawPoint) : List RoutePt :=
  pts.filterMap (fun p => (env.parse p.order_id).map (fun oid => (⟨oid, p.sequence⟩ : RoutePt)))

/-- One iteration of the endpoint loop over engine proposals, with state
(used courier ids, emitted routes): unparsable courier id, already-used
courier, empty filtered point list, unparsable depot id, failed pydantic
validation or a create_route exception each skip the proposal. -/
def arbiterStep (env : ArbiterEnv) (st : List Nat × List RouteCreateData)
    (rd : ProposedRoute) : List Nat × List RouteCreateData :=
  match env.parse rd.courier_id with
  | none => st
  | some cid =>
    if cid ∈ st.1 then st
    else
      let pts := filterPoints env rd.points
      if pts.isEmpty then st
      else
        match env.parse rd.depot_id with
        | none => st
        | some did =>
          let d : RouteCreateData :=
            ⟨cid, did, rd.total_distance, rd.total_load, rd.total_weight, pts⟩
          if ¬ routeCreateValid d then st
          else
            match createRoute env d with
            | none => st
            | some r => (st.1 ++ [cid], st.2 ++ [r])

/-- The routes the optimization call emits (routes_response). -/
def emitRoutes (env : ArbiterEnv) (proposed : List ProposedRoute) : List RouteCreateData :=
  (proposed.foldl (arbiterStep env) ([], [])).2

/-- Reported total distance: sum over the emitted routes. -/
def summaryTotalDistance (env : ArbiterEnv) (proposed : List ProposedRoute) : ℚ :=
  ((emitRoutes env proposed).map (fun r => r.total_distance)).sum

/-- Reported assigned-order count: sum of point counts over emitted routes. -/
def summaryAssignedOrders (env : ArbiterEnv) (proposed : List ProposedRoute) : Nat :=
  ((emitRoutes env proposed).map (fun r => r.points.length)).sum

/-- Everything that holds of a route that survived validation and
create_route. -/
def EmittedOk (env : ArbiterEnv) (r : RouteCreateData) : Prop :=
  r.points ≠ [] ∧
  routeCreateValid r = true ∧
  (∃ c, env.findCourier r.courier_id = some c ∧
    env.findDepot r.depot_id = true ∧
    c.depot_id = r.depot_id ∧
    routeLoad env r.points ≤ c.max_capacity) ∧
  ∀ p ∈ r.points, ∃ o, env.findOrder p.order_id = some o ∧
    o.status = PyOrderStatus.pending

theorem createRoute_some {env : ArbiterEnv} {d r : RouteCreateData}
    (h : createRoute env d = some r) (hne : d.points ≠ []) :
    r = d ∧
    (∃ c, env.findCourier d.courier_id = some c ∧
      env.findDepot d.depot_id = true ∧
      c.depot_id = d.depot_id ∧
      routeLoad env d.points ≤ c.max_capacity) ∧
    ∀ p ∈ d.points, ∃ o, env.findOrder p.order_id = some o ∧
      o.status = PyOrderStatus.pending := by
  unfold createRoute at h
  cases hc : env.findCourier d.courier_id with
  | none => rw [hc] at h; exact absurd h (by simp)
  | some c =>
    rw [hc] at h
    dsimp only at h
    split_ifs at h with h1 h2 h3 h4 <;> simp at h
    have hrd : r = d := h.symm
    have hcap : routeLoad env d.points ≤ c.max_capacity := by
      by_contra hx
      exact h3 ⟨List.length_pos.mpr hne, hx⟩
    refine ⟨hrd, ⟨c, rfl, h1, not_not.mp h2, hcap⟩, ?_⟩
    intro p hp
    have hpt := List.all_eq_true.mp h4 p hp
    cases ho : env.findOrder p.order_id with
    | none => rw [ho] at hpt; exact absurd hpt (by simp)
    | some o =>
      rw [ho] at hpt
      exact ⟨o, rfl, by simpa using hpt⟩

/-- The loop-state invariant of the endpoint. -/
def StateOk (env : ArbiterEnv) (st : List Nat × List RouteCreateData) : Prop :=
  (st.2.map (fun r => r.courier_id)).Nodup ∧
  ∀ r ∈ st.2, r.courier_id ∈ st.1 ∧ EmittedOk env r

theorem stateOk_insert {env : ArbiterEnv} {st : List Nat × List RouteCreateData}
    {cid : Nat} {r : RouteCreateData} (h : StateOk env st) (hused : cid ∉ st.1)
    (hcour : r.courier_id = cid) (hok : EmittedOk env r) :
    StateOk env (st.1 ++ [cid], st.2 ++ [r]) := by
  obtain ⟨hnd, hall⟩ := h
  constructor
  · rw [List.map_append]
    refine List.Nodup.append hnd (by simp) ?_
    intro a ha hb
    simp only [List.map_cons, List.map_nil, List.mem_cons,
      List.not_mem_nil, or_false] at hb
    subst hb
    obtain ⟨a', ha', haeq⟩ := List.mem_map.mp ha
    have hmem := (hall a' ha').1
    rw [haeq, hcour] at hmem
    exact hused hmem
  · intro r' hr'
    rcases List.mem_append.mp hr' with hold | hnew
    · obtain ⟨hmem, hok'⟩ := hall r' hold
      exact ⟨List.mem_append.mpr (Or.inl hmem), hok'⟩
    · simp only [List.mem_cons, List.not_mem_nil, or_false] at hnew
      subst hnew
      exact ⟨List.mem_append.mpr (Or.inr (by simp [hcour])), hok⟩

theorem arbiterStep_ok {env : ArbiterEnv} {st : List Nat × List RouteCreateData}
    (rd : ProposedRoute) (h : StateOk env st) : StateOk env (arbiterStep env st rd) := by
  unfold arbiterStep
  cases hcid : env.parse rd.courier_id with
  | none => exact h
  | some cid =>
    dsimp only
    by_cases hused : cid ∈ st.1
    · rw [if_pos hused]; exact h
    · rw [if_neg hused]
      cases hpts : (filterPoints env rd.points).isEmpty with
      | true => rw [if_pos rfl]; exact h
      | false =>
        rw [if_neg Bool.false_ne_true]
        cases hdid : env.parse rd.depot_id with
        | none => exact h
        | some did =>
          dsimp only
          by_cases hval : routeCreateValid
            ⟨cid, did, rd.total_distance, rd.total_load, rd.total_weight,
              filterPoints env rd.points⟩ = true
          · rw [if_neg (by simp [hval])]
            cases hcr : createRoute env
              ⟨cid, did, rd.total_distance, rd.total_load, rd.total_weight,
                filterPoints env rd.points⟩ with
            | none => exact h
            | some r =>
              have hdne : (⟨cid, did, rd.total_distance, rd.total_load,
                  rd.total_weight, filterPoints env rd.points⟩ :
                  RouteCreateData).points ≠ [] := by
                simpa using hpts
              obtain ⟨hrd, hx, hord⟩ := createRoute_some hcr hdne
              subst hrd
              exact stateOk_insert h hused rfl ⟨hdne, hval, hx, hord⟩
          · rw [if_pos (by simpa using hval)]
            exact h

theorem emitFold_ok (env : ArbiterEnv) (proposed : List ProposedRoute) :
    ∀ st, StateOk env st → StateOk env (proposed.foldl (arbiterStep env) st) := by
  induction proposed with
  | nil => intro st h; exact h
  | cons rd rest ih =>
    intro st h
    exact ih _ (arbiterStep_ok rd h)

theorem emitRoutes_ok (env : ArbiterEnv) (proposed : List ProposedRoute) :
    ∀ r ∈ emitRoutes env proposed, EmittedOk env r := by
  intro r hr
  exact ((emitFold_ok env proposed ([], []) ⟨by simp, by simp⟩).2 r hr).2

theorem routeLoad_eq_sum (env : ArbiterEnv) :
    ∀ (pts : List RoutePt) (a : Int),
      pts.foldl (fun acc p =>
        match env.findOrder p.order_id with
        | some o => acc + o.items_count
        | none => acc) a =
      a + (pts.map (fun p => (env.findOrder p.order_id).elim 0
        (fun o => o.items_count))).sum := by
  intro pts
  induction pts with
  | nil => intro a; simp
  | cons p ps ih =>
    intro a
    simp only [List.foldl_cons, List.map_cons, List.sum_cons]
    cases ho : env.findOrder p.order_id with
    | none => rw [ih]; simp [Option.elim]
    | some o => rw [ih]; simp [Option.elim]; ring

/-- C1. Every route emitted by an optimization call, whatever engine
produced the proposal list, satisfies the items capacity of its courier:
create_route validates sum(items_count) <= courier.max_capacity and the
endpoint drops any proposal that fails, so the per-engine gaps (for example
the unguarded GA swap mutation) cannot surface in emitted routes. -/
theorem route_items_capacity_spec (env : ArbiterEnv) (proposed : List ProposedRoute) :
    ∀ r ∈ emitRoutes env proposed,
      ∃ c, env.findCourier r.courier_id = some c ∧
        (∀ p ∈ r.points, (env.findOrder p.order_id).isSome = true) ∧
        (r.points.map (fun p => (env.findOrder p.order_id).elim 0
          (fun o => o.items_count))).sum ≤ c.max_capacity := by
  intro r hr
  obtain ⟨hne, hval, ⟨c, hc, hdep, hdeq, hcap⟩, hord⟩ := emitRoutes_ok env proposed r hr
  refine ⟨c, hc, ?_, ?_⟩
  · intro p hp
    obtain ⟨o, ho, -⟩ := hord p hp
    simp [ho]
  · unfold routeLoad at hcap
    rw [routeLoad_eq_sum env r.points 0] at hcap
    simpa using hcap

/-- UUID parsing oracle for the concrete emission scenarios. -/
def cexParse : String → Option Nat := fun s =>
  if s = "c" then some 1 else if s = "d" then some 2
  else if s = "o2" then some 3 else none

/-- Concrete database oracles for the emission scenarios: one courier 1 of
capacity 10 at depot 2, one pending order 3 of 1 item. -/
def cexEnv : ArbiterEnv :=
  ⟨cexParse,
   fun n => if n = 3 then some ⟨1, PyOrderStatus.pending⟩ else none,
   fun n => if n = 1 then some ⟨2, 10⟩ else none,
   fun n => n == 2⟩

/-- A proposal as every engine emits it (sequences 0..k-1) whose first point
carries a malformed order id. -/
def cexProposed : List ProposedRoute :=
  [⟨"c", "d", 0, 2, 0, [⟨"bad", 0⟩, ⟨"o2", 1⟩]⟩]

/-- Witness for C1 at the concrete scenario: the emitted route's item sum is
within the courier capacity. -/
theorem route_items_capacity_spec_witness :
    (([⟨3, 1⟩] : List RoutePt).map (fun p => (cexEnv.findOrder p.order_id).elim 0
      (fun o => o.items_count))).sum ≤ (10 : Int) := by
  have hmem : (⟨1, 2, 0, 2, 0, [⟨3, 1⟩]⟩ : RouteCreateData) ∈
      emitRoutes cexEnv cexProposed := by decide
  obtain ⟨c, hc, hsome, hcap⟩ :=
    route_items_capacity_spec cexEnv cexProposed ⟨1, 2, 0, 2, 0, [⟨3, 1⟩]⟩ hmem
  have hc2 : (some (⟨2, 10⟩ : DbCourier)) = some c := hc
  have hceq : c = ⟨2, 10⟩ := (Option.some_injective _ hc2).symm
  subst hceq
  exact hcap

/-- C3. The session arbiter: emitted courier ids are pairwise distinct (so
each courier id appears in at most one emitted route of the session);
emitted routes have non-empty point lists; a proposal whose courier id was
already emitted leaves the loop state unchanged; the reported total distance
and assigned-order count are sums over only the surviving routes. -/
theorem session_arbiter_spec (env : ArbiterEnv) (proposed : List ProposedRoute) :
    ((emitRoutes env proposed).map (fun r => r.courier_id)).Nodup ∧
    (∀ r ∈ emitRoutes env proposed, r.points ≠ []) ∧
    (∀ (st : List Nat × List RouteCreateData) (rd : ProposedRoute) (cid : Nat),
      env.parse rd.courier_id = some cid → cid ∈ st.1 →
      arbiterStep env st rd = st) ∧
    summaryTotalDistance env proposed =
      ((emitRoutes env proposed).map (fun r => r.total_distance)).sum ∧
    summaryAssignedOrders env proposed =
      ((emitRoutes env proposed).map (fun r => r.points.length)).sum := by
  have hok := emitFold_ok env proposed ([], []) ⟨by simp, by simp⟩
  refine ⟨hok.1, ?_, ?_, rfl, rfl⟩
  · intro r hr
    exact ((hok.2 r hr).2).1
  · intro st rd cid hcid hmem
    unfold arbiterStep
    rw [hcid]
    dsimp only
    rw [if_pos hmem]

/-- Witness for C3: a second proposal for the already-used courier 1 is
dropped without touching the state. -/
theorem session_arbiter_spec_witness :
    arbiterStep cexEnv ([1], []) ⟨"c", "d", 0, 2, 0, [⟨"bad", 0⟩, ⟨"o2", 1⟩]⟩ =
      ([1], []) := by
  exact (session_arbiter_spec cexEnv cexProposed).2.2.1 ([1], [])
    ⟨"c", "d", 0, 2, 0, [⟨"bad", 0⟩, ⟨"o2", 1⟩]⟩ 1 rfl (by decide)

/-- Counterexample to C5 as stated: the proposal carries engine sequences
0..1, the pipeline skips the leading malformed-id point, and the surviving
point keeps sequence 1, so the emitted route's sequence values are [1],
not the contiguous range 0..k-1 = [0] (the pydantic validator only demands
consecutiveness from the minimum, not an anchor at 0). -/
theorem route_sequence_cex :
    (emitRoutes cexEnv cexProposed).map (fun r => r.points.map (fun p => p.sequence)) =
      [[1]] ∧
    ([1] : List Int) ≠ (List.range 1).map (fun k => (k : Int)) := by
  constructor
  · decide
  · decide

/-- C5 (amended). Every emitted route's sequence values are pairwise
distinct and consecutive from their minimum to their maximum; when every
point of a proposal parses, filtering preserves the sequence list, so
engine-emitted 0..k-1 sequences survive intact; but a skipped leading
malformed-id point shifts the contiguous range above 0 (and a skipped
interior point makes validation drop the whole route). -/
theorem route_sequence_spec :
    (∀ (env : ArbiterEnv) (proposed : List ProposedRoute),
      ∀ r ∈ emitRoutes env proposed,
        (r.points.map (fun p => p.sequence)).Nodup ∧
        seqConsecutive (r.points.map (fun p => p.sequence)) = true) ∧
    (∀ (env : ArbiterEnv) (pts : List RawPoint),
      (∀ p ∈ pts, (env.parse p.order_id).isSome = true) →
      (filterPoints env pts).map (fun q => q.sequence) =
        pts.map (fun p => p.sequence)) := by
  constructor
  · intro env proposed r hr
    obtain ⟨hne, hval, -, -⟩ := emitRoutes_ok env proposed r hr
    unfold routeCreateValid at hval
    simp only [Bool.and_eq_true, Bool.or_eq_true, decide_eq_true_eq] at hval
    rcases hval.2 with hempty | hboth
    · exact absurd (List.isEmpty_iff.mp hempty) hne
    · exact ⟨hboth.1, hboth.2⟩
  · intro env pts
    induction pts with
    | nil => intro _; rfl
    | cons p ps ih =>
      intro hall
      obtain ⟨oid, hoid⟩ := Option.isSome_iff_exists.mp (hall p (by simp))
      unfold filterPoints
      simp only [List.filterMap_cons, hoid, Option.map_some]
      have := ih (fun q hq => hall q (by simp [hq]))
      unfold filterPoints at this
      simp [this]

/-- Witness for C5 (amended) at the concrete scenario. -/
theorem route_sequence_spec_witness :
    (((⟨1, 2, 0, 2, 0, [⟨3, 1⟩]⟩ : RouteCreateData).points.map
      (fun p => p.sequence)).Nodup ∧
      seqConsecutive ((⟨1, 2, 0, 2, 0, [⟨3, 1⟩]⟩ : RouteCreateData).points.map
        (fun p => p.sequence)) = true) ∧
    (filterPoints cexEnv [⟨"o2", 5⟩]).map (fun q => q.sequence) =
      ([⟨"o2", 5⟩] : List RawPoint).map (fun p => p.sequence) := by
  constructor
  · exact route_sequence_spec.1 cexEnv cexProposed ⟨1, 2, 0, 2, 0, [⟨3, 1⟩]⟩
      (by decide)
  · exact route_sequence_spec.2 cexEnv [⟨"o2", 5⟩]
      (by intro p hp; simp at hp; subst hp; rfl)

/-! ## Osrm: the road-network distance-matrix provider
(RouteOptimizer._compute_osrm_distance_matrix, route_optimizer.py lines
612-671, _get_osrm_matrix_for_locations lines 673-726 and
_get_osrm_matrix_batch lines 728-821). HTTP requests are modelled by
outcome oracles; matrices are total functions with 0 outside the written
region, matching the np.zeros initialisation. -/

/-- The outcome of one HTTP GET to the table service: exn covers connection
errors and timeouts (any raised requests exception), resp carries the status
code plus the JSON fields the code reads (data.get of code and distances). -/
inductive HttpOutcome where
  | exn
  | resp (status : Nat) (code : Option String) (distances : List (List ℝ))

/-- The direct-distance matrix: zeros on the diagonal, Location.distance_to
off it (both the non-OSRM branch of _compute_distance_matrix and the except
fallback loop build exactly this). -/
noncomputable def haversineMatrix (locations : List Location) : Nat → Nat → ℝ :=
  fun i j =>
    if i = j then 0
    else
      match locations.get? i, locations.get? j with
      | some li, some lj => li.distanceTo (some lj)
      | _, _ => 0

/-- The validity filter of _get_osrm_matrix_batch: both coordinates present
and not the (0, 0) point. -/
noncomputable def isUsableLoc (l : Location) : Bool :=
  l.latitude.isSome && l.longitude.isSome &&
    !(decide (l.latitude = some 0 ∧ l.longitude = some 0))

/-- RouteOptimizer._get_osrm_matrix_batch: filter out unusable locations
(raising when fewer than two remain out of a shrunk list), then demand
HTTP 200, code Ok, a distances array of exactly len(valid) rows of
len(valid) entries each; meters become kilometers; a shrunk valid list
zero-pads the result back to the full size. Every raise is the error case. -/
noncomputable def getOsrmMatrixBatch (outcome : HttpOutcome)
    (locations : List Location) : Except Unit (Nat → Nat → ℝ) :=
  let size := locations.length
  let valid := locations.filter isUsableLoc
  if valid.length ≠ size ∧ valid.length < 2 then .error ()
  else
    match outcome with
    | .exn => .error ()
    | .resp status code distances =>
      if status ≠ 200 then .error ()
      else if code ≠ some "Ok" then .error ()
      else if distances.isEmpty ∨ distances.length ≠ valid.length then .error ()
      else if ∃ row ∈ distances, row.length ≠ valid.length then .error ()
      else
        let m : Nat → Nat → ℝ := fun i j =>
          (((distances.get? i).getD []).get? j).getD 0 / 1000
        if valid.length ≠ size then
          .ok (fun i j => if i < valid.length ∧ j < valid.length then m i j else 0)
        else .ok m

/-- RouteOptimizer._get_osrm_matrix_for_locations, used per tile of the
batched path: demands HTTP 200 and code Ok, no shape checks, meters to
kilometers. -/
noncomputable def getOsrmMatrixForLocations (outcome : HttpOutcome) :
    Except Unit (Nat → Nat → ℝ) :=
  match outcome with
  | .exn => .error ()
  | .resp status code distances =>
    if status ≠ 200 then .error ()
    else if code ≠ some "Ok" then .error ()
    else .ok (fun i j => (((distances.get? i).getD []).get? j).getD 0 / 1000)

/-- The 100-aligned tile origins of the nested range(0, size, 100) loops. -/
def tilePairs (size : Nat) : List (Nat × Nat) :=
  ((List.range size).filter (fun k => k % 100 = 0)).flatMap (fun i0 =>
    ((List.range size).filter (fun k => k % 100 = 0)).map (fun j0 => (i0, j0)))

/-- Copying one tile into the big matrix, as the sub_i/sub_j copy loops do. -/
noncomputable def writeTile (m : Nat → Nat → ℝ) (i0 j0 iend jend : Nat)
    (sub : Nat → Nat → ℝ) : Nat → Nat → ℝ :=
  fun i j =>
    if i0 ≤ i ∧ i < iend ∧ j0 ≤ j ∧ j < jend then sub (i - i0) (j - j0) else m i j

/-- The tiled branch of _compute_osrm_distance_matrix: fetch each 100 x 100
tile in loop order, copying it into the zero matrix; a raise in any tile
aborts the whole computation. -/
noncomputable def computeOsrmTiled (tiles : Nat × Nat → HttpOutcome)
    (locations : List Location) : Except Unit (Nat → Nat → ℝ) :=
  (tilePairs locations.length).foldlM
    (fun m p =>
      (getOsrmMatrixForLocations (tiles p)).map (fun sub =>
        writeTile m p.1 p.2 (min (p.1 + 100) locations.length)
          (min (p.2 + 100) locations.length) sub))
    (fun _ _ => 0)

/-- RouteOptimizer._compute_osrm_distance_matrix: one batched request for at
most 100 locations, the tiled loop otherwise, and on any exception the full
haversine matrix for the entire call; the function always returns a matrix
and never propagates a remote error. -/
noncomputable def computeOsrmDistanceMatrix (batchOutcome : HttpOutcome)
    (tiles : Nat × Nat → HttpOutcome) (locations : List Location) :
    Nat → Nat → ℝ :=
  let attempt : Except Unit (Nat → Nat → ℝ) :=
    if locations.length ≤ 100 then getOsrmMatrixBatch batchOutcome locations
    else computeOsrmTiled tiles locations
  match attempt with
  | .ok m => m
  | .error _ => haversineMatrix locations

theorem tiledFold_error (tiles : Nat × Nat → HttpOutcome)
    (iend jend : Nat → Nat) :
    ∀ (l : List (Nat × Nat)) (acc : Nat → Nat → ℝ),
      (∃ p ∈ l, getOsrmMatrixForLocations (tiles p) = .error ()) →
      (l.foldlM (fun m p =>
        (getOsrmMatrixForLocations (tiles p)).map (fun sub =>
          writeTile m p.1 p.2 (iend p.1) (jend p.2) sub)) acc :
        Except Unit (Nat → Nat → ℝ)) = .error () := by
  intro l
  induction l with
  | nil => intro acc h; simp at h
  | cons p ps ih =>
    intro acc h
    cases hp : getOsrmMatrixForLocations (tiles p) with
    | error e =>
      simp only [List.foldlM_cons, hp]
      rfl
    | ok sub =>
      obtain ⟨q, hq, hqe⟩ := h
      rcases List.mem_cons.mp hq with h0 | hps
      · subst h0; rw [hp] at hqe; exact absurd hqe (by simp)
      · simp only [List.foldlM_cons, hp]
        exact ih _ ⟨q, hps, hqe⟩

/-- C6. With the road-network backend selected, any HTTP exception or
timeout, non-200 status, non-Ok payload code, or matrix shape mismatch
makes the provider return the full haversine matrix for the entire call;
remote failures never escape: the provider is a total function into
matrices, the enumerated failure kinds each force the batched request into
the raising path, and a failing tile aborts the whole tiled computation
into the same fallback. -/
theorem osrm_fallback_spec :
    (∀ (b : HttpOutcome) (tiles : Nat × Nat → HttpOutcome)
        (locations : List Location),
      locations.length ≤ 100 → getOsrmMatrixBatch b locations = .error () →
      computeOsrmDistanceMatrix b tiles locations = haversineMatrix locations) ∧
    (∀ (locations : List Location) (status : Nat) (code : Option String)
        (distances : List (List ℝ)),
      getOsrmMatrixBatch .exn locations = .error () ∧
      (status ≠ 200 →
        getOsrmMatrixBatch (.resp status code distances) locations = .error ()) ∧
      (code ≠ some "Ok" →
        getOsrmMatrixBatch (.resp status code distances) locations = .error ()) ∧
      (distances.length ≠ (locations.filter isUsableLoc).length →
        getOsrmMatrixBatch (.resp status code distances) locations = .error ()) ∧
      ((∃ row ∈ distances, row.length ≠ (locations.filter isUsableLoc).length) →
        getOsrmMatrixBatch (.resp status code distances) locations = .error ())) ∧
    (∀ (b : HttpOutcome) (tiles : Nat × Nat → HttpOutcome)
        (locations : List Location),
      100 < locations.length → computeOsrmTiled tiles locations = .error () →
      computeOsrmDistanceMatrix b tiles locations = haversineMatrix locations) ∧
    (∀ (tiles : Nat × Nat → HttpOutcome) (locations : List Location)
        (p : Nat × Nat),
      p ∈ tilePairs locations.length → tiles p = .exn →
      computeOsrmTiled tiles locations = .error ()) := by
  refine ⟨?_, ?_, ?_, ?_⟩
  · intro b tiles locations hlen herr
    unfold computeOsrmDistanceMatrix
    rw [if_pos hlen, herr]
  · intro locations status code distances
    refine ⟨?_, ?_, ?_, ?_, ?_⟩
    · unfold getOsrmMatrixBatch
      by_cases hg : (locations.filter isUsableLoc).length ≠ locations.length ∧
          (locations.filter isUsableLoc).length < 2
      · rw [if_pos hg]
      · rw [if_neg hg]
    · intro hs
      unfold getOsrmMatrixBatch
      by_cases hg : (locations.filter isUsableLoc).length ≠ locations.length ∧
          (locations.filter isUsableLoc).length < 2
      · rw [if_pos hg]
      · rw [if_neg hg]
        dsimp only
        rw [if_pos hs]
    · intro hcode
      unfold getOsrmMatrixBatch
      by_cases hg : (locations.filter isUsableLoc).length ≠ locations.length ∧
          (locations.filter isUsableLoc).length < 2
      · rw [if_pos hg]
      · rw [if_neg hg]
        dsimp only
        by_cases hs : status ≠ 200
        · rw [if_pos hs]
        · rw [if_neg hs, if_pos hcode]
    · intro hlen
      unfold getOsrmMatrixBatch
      by_cases hg : (locations.filter isUsableLoc).length ≠ locations.length ∧
          (locations.filter isUsableLoc).length < 2
      · rw [if_pos hg]
      · rw [if_neg hg]
        dsimp only
        by_cases hs : status ≠ 200
        · rw [if_pos hs]
        · rw [if_neg hs]
          by_cases hc : code ≠ some "Ok"
          · rw [if_pos hc]
          · rw [if_neg hc, if_pos (Or.inr hlen)]
    · intro hrow
      unfold getOsrmMatrixBatch
      by_cases hg : (locations.filter isUsableLoc).length ≠ locations.length ∧
          (locations.filter isUsableLoc).length < 2
      · rw [if_pos hg]
      · rw [if_neg hg]
        dsimp only
        by_cases hs : status ≠ 200
        · rw [if_pos hs]
        · rw [if_neg hs]
          by_cases hc : code ≠ some "Ok"
          · rw [if_pos hc]
          · rw [if_neg hc]
            by_cases hemp : distances.isEmpty = true ∨
                distances.length ≠ (locations.filter isUsableLoc).length
            · rw [if_pos hemp]
            · rw [if_neg hemp, if_pos hrow]
  · intro b tiles locations hlen herr
    unfold computeOsrmDistanceMatrix
    rw [if_neg (by omega), herr]
  · intro tiles locations p hp hexn
    unfold computeOsrmTiled
    exact tiledFold_error tiles (fun a => min (a + 100) locations.length)
      (fun a => min (a + 100) locations.length) (tilePairs locations.length)
      (fun _ _ => 0) ⟨p, hp, by rw [hexn]; rfl⟩

/-- Witness for C6: a two-location call whose single batched request raises
degrades to the haversine matrix. -/
theorem osrm_fallback_spec_witness :
    computeOsrmDistanceMatrix .exn (fun _ => .exn)
      [⟨some 1, some 2⟩, ⟨some 3, some 4⟩] =
      haversineMatrix [⟨some 1, some 2⟩, ⟨some 3, some 4⟩] := by
  have h := osrm_fallback_spec
  exact h.1 .exn (fun _ => .exn) [⟨some 1, some 2⟩, ⟨some 3, some 4⟩]
    (by norm_num) ((h.2.1 [⟨some 1, some 2⟩, ⟨some 3, some 4⟩] 0 none []).1)

/-! ## Cp: the OR-Tools model setup
(RouteOptimizer._optimize_with_or_tools, route_optimizer.py lines 231-496,
and _optimize_with_or_tools_multi_depot, lines 1277-1560). The solver
itself is the external ortools library; what the source controls is the
model it constructs: dimension capacities, soft bounds and penalties. The
standard contract of a routing dimension with zero slack, capacity C and
start cumul 0 is that every vehicle's accumulated transit along its route
is at most C; RespectsDistanceCap states that contract for the Distance
dimension, and route extraction accumulates the same arc costs. -/

/-- Python int() truncation toward zero of a float, on exact rationals. -/
def pyTrunc (q : ℚ) : Int := if 0 ≤ q then ⌊q⌋ else ⌈q⌉

/-- The courier fields the CP model setup reads. -/
structure CpCourier where
  max_capacity : Option Int
  max_weight : Option ℚ
  max_distance : Option ℚ
deriving DecidableEq

/-- The parts of the constructed routing model that the claims concern. -/
structure CpModel where
  distCapMeters : Int
  softBounds : List Int
  softPenalty : Int
  vehicleCapacities : List Int
  vehicleWeightCapacities : List Int
deriving DecidableEq

/-- The single-depot model of _optimize_with_or_tools: hard Distance
dimension capacity int(50.0 * 1000), per-vehicle soft upper bound
int(max_distance * 1000) with penalty 100000, items and gram capacities. -/
def buildOrToolsModel (couriers : List CpCourier) : CpModel :=
  { distCapMeters := pyTrunc (50.0 * 1000)
    softBounds := couriers.map (fun c => pyTrunc (c.max_distance.getD 50 * 1000))
    softPenalty := 100000
    vehicleCapacities := couriers.map (fun c => c.max_capacity.getD 10)
    vehicleWeightCapacities :=
      couriers.map (fun c => pyTrunc (c.max_weight.getD 50 * 1000)) }

/-- The joint multi-depot model of _optimize_with_or_tools_multi_depot:
identical except the hard Distance capacity is int(100.0 * 1000). -/
def buildOrToolsMultiDepotModel (couriers : List CpCourier) : CpModel :=
  { distCapMeters := pyTrunc (100.0 * 1000)
    softBounds := couriers.map (fun c => pyTrunc (c.max_distance.getD 50 * 1000))
    softPenalty := 100000
    vehicleCapacities := couriers.map (fun c => c.max_capacity.getD 10)
    vehicleWeightCapacities :=
      couriers.map (fun c => pyTrunc (c.max_weight.getD 50 * 1000)) }

/-- Integer arc-cost sum along a vehicle's visited node path, the quantity
both the Distance dimension accumulates and the extraction loop sums via
GetArcCostForVehicle. -/
def pathDistMeters (Dm : Nat → Nat → Int) : List Nat → Int
  | [] => 0
  | [_] => 0
  | a :: b :: rest => Dm a b + pathDistMeters Dm (b :: rest)

/-- The Distance dimension contract for one vehicle path in a model. -/
def RespectsDistanceCap (model : CpModel) (Dm : Nat → Nat → Int)
    (path : List Nat) : Prop :=
  pathDistMeters Dm path ≤ model.distCapMeters

/-- The extracted total_distance of a route: accumulated meters / 1000. -/
def extractedRouteDistanceKm (Dm : Nat → Nat → Int) (path : List Nat) : ℚ :=
  ((pathDistMeters Dm path : Int) : ℚ) / 1000

/-- C9. Besides the per-courier soft upper bounds, both CP models carry a
hard cumulative Distance capacity - 50000 m in the single-depot model and
100000 m in the joint multi-depot model - so any solution honouring the
dimension yields extracted routes of at most 50 km (resp. 100 km),
regardless of how large the couriers' max route distances are; the spec
describes only the soft bounds. -/
theorem cp_hard_distance_cap_spec :
    (∀ couriers : List CpCourier,
      (buildOrToolsModel couriers).distCapMeters = 50000 ∧
      (buildOrToolsMultiDepotModel couriers).distCapMeters = 100000 ∧
      (buildOrToolsModel couriers).softBounds =
        couriers.map (fun c => pyTrunc (c.max_distance.getD 50 * 1000))) ∧
    (∀ (couriers : List CpCourier) (Dm : Nat → Nat → Int) (path : List Nat),
      RespectsDistanceCap (buildOrToolsModel couriers) Dm path →
      extractedRouteDistanceKm Dm path ≤ 50) ∧
    (∀ (couriers : List CpCourier) (Dm : Nat → Nat → Int) (path : List Nat),
      RespectsDistanceCap (buildOrToolsMultiDepotModel couriers) Dm path →
      extractedRouteDistanceKm Dm path ≤ 100) := by
  have hcap50 : pyTrunc (50.0 * 1000) = 50000 := by
    unfold pyTrunc
    norm_num
  have hcap100 : pyTrunc (100.0 * 1000) = 100000 := by
    unfold pyTrunc
    norm_num
  refine ⟨fun couriers => ⟨hcap50, hcap100, rfl⟩, ?_, ?_⟩
  · intro couriers Dm path h
    unfold RespectsDistanceCap at h
    rw [show (buildOrToolsModel couriers).distCapMeters = 50000 from hcap50] at h
    unfold extractedRouteDistanceKm
    rw [div_le_iff₀ (by norm_num)]
    calc ((pathDistMeters Dm path : Int) : ℚ) ≤ ((50000 : Int) : ℚ) := by
          exact_mod_cast h
      _ = 50 * 1000 := by norm_num
  · intro couriers Dm path h
    unfold RespectsDistanceCap at h
    rw [show (buildOrToolsMultiDepotModel couriers).distCapMeters = 100000 from
      hcap100] at h
    unfold extractedRouteDistanceKm
    rw [div_le_iff₀ (by norm_num)]
    calc ((pathDistMeters Dm path : Int) : ℚ) ≤ ((100000 : Int) : ℚ) := by
          exact_mod_cast h
      _ = 100 * 1000 := by norm_num

/-- Witness for C9: a courier allowed 200 km by its own limit still cannot
exceed 50 km through the hard cap when the dimension is honoured. -/
theorem cp_hard_distance_cap_spec_witness :
    extractedRouteDistanceKm (fun _ _ => 24500) [0, 1, 0] ≤ 50 := by
  exact cp_hard_distance_cap_spec.2.1 [⟨some 5, some 10, some 200⟩]
    (fun _ _ => 24500) [0, 1, 0] (by
      show pathDistMeters (fun _ _ => 24500) [0, 1, 0] ≤ _
      norm_num [pathDistMeters, buildOrToolsModel, pyTrunc])

/-! ## NN: the nearest-neighbor engine
(RouteOptimizer._optimize_with_nearest_neighbor, route_optimizer.py lines
69-229, _optimize_route_order lines 823-886, _simple_distribution lines
498-558). The distance matrix the engine computes and then consults is a
parameter D; an order's location usability (whether
_create_location_from_dict succeeds on its dict) is the hasLoc flag, and
the matrix row index of the i-th located order is i + 1 as built by the
locations list (depot at 0). -/

/-- The order fields the NN engine reads. -/
structure NNOrder where
  id : String
  items_count : Option Int
  weight : Option ℚ
  hasLoc : Bool
deriving DecidableEq, Inhabited

/-- The courier fields the NN engine reads. -/
structure NNCourier where
  id : String
  max_capacity : Option Int
  max_weight : Option ℚ
  max_distance : Option ℚ
deriving DecidableEq, Inhabited

/-- A distance matrix, indexed like the locations list (depot = 0). -/
abbrev DistMat := Nat → Nat → ℚ

/-- order.get of items_count with default 1. -/
def ordItems (o : NNOrder) : Int := o.items_count.getD 1

/-- order.get of weight with default 1.0. -/
def ordWeight (o : NNOrder) : ℚ := o.weight.getD 1

/-- courier.get of max_capacity with default 10. -/
def courCap (c : NNCourier) : Int := c.max_capacity.getD 10

/-- courier.get of max_weight with default 50.0. -/
def courMaxWeight (c : NNCourier) : ℚ := c.max_weight.getD 50

/-- courier.get of max_distance with default 50.0. -/
def courMaxDistance (c : NNCourier) : ℚ := c.max_distance.getD 50

/-- One step of building order_locations: a located order is appended with
the next matrix index. -/
def locStep (st : List (String × Nat) × Nat) (o : NNOrder) :
    List (String × Nat) × Nat :=
  if o.hasLoc then (st.1 ++ [(o.id, st.2 + 1)], st.2 + 1) else st

/-- The order_locations dict: the i-th located order receives matrix index
i + 1 (depot holds index 0). A duplicate order id would be overwritten in
the Python dict; theorems assume distinct ids. -/
def buildOrderLocations (orders : List NNOrder) : List (String × Nat) :=
  (orders.foldl locStep ([], 0)).1

/-- sorted_orders: the located orders paired with their depot distance,
sorted ascending by that distance (Python list.sort is stable; modelled by
the stable insertion sort). -/
def sortedOrders (D : DistMat) (locs : List (String × Nat))
    (orders : List NNOrder) : List (NNOrder × ℚ) :=
  List.insertionSort (fun a b => a.2 ≤ b.2)
    (orders.filterMap (fun o => (locs.lookup o.id).map (fun idx => (o, D 0 idx))))

/-- One candidate of the nearest-order scan: located orders strictly closer
than the best seen so far replace it. -/
def fnStep (D : DistMat) (locs : List (String × Nat)) (cur : Nat)
    (best : Option (NNOrder × Nat × ℚ)) (o : NNOrder) :
    Option (NNOrder × Nat × ℚ) :=
  match locs.lookup o.id with
  | none => best
  | some idx =>
    let dist := D cur idx
    match best with
    | none => some (o, idx, dist)
    | some b => if dist < b.2.2 then some (o, idx, dist) else best

/-- The inner scan of _optimize_route_order: the first strictly-nearest
located order among the unvisited ones, with its index and distance. -/
def findNearest (D : DistMat) (locs : List (String × Nat)) (cur : Nat)
    (unvisited : List NNOrder) : Option (NNOrder × Nat × ℚ) :=
  unvisited.foldl (fnStep D locs cur) none

/-- The while-loop of _optimize_route_order, with fuel equal to the order
count: state is (current index, accumulated distance, visited, unvisited).
When an unvisited order has no matrix index the source loops forever; fuel
exhaustion models that dead branch, which is unreachable for engine inputs
(buckets only ever hold located orders). -/
def nnTraversalGo (D : DistMat) (locs : List (String × Nat)) :
    Nat → Nat → ℚ → List NNOrder → List NNOrder → List NNOrder × ℚ × Nat
  | 0, cur, acc, visited, _ => (visited, acc, cur)
  | fuel + 1, cur, acc, visited, unvisited =>
    match findNearest D locs cur unvisited with
    | none => (visited, acc, cur)
    | some (o, idx, dist) =>
      nnTraversalGo D locs fuel idx (acc + dist) (visited ++ [o]) (unvisited.erase o)

/-- _optimize_route_order: NN traversal from the depot, plus the return leg
when any order was visited. -/
def optimizeRouteOrder (D : DistMat) (locs : List (String × Nat))
    (orders : List NNOrder) : List NNOrder × ℚ :=
  if orders.isEmpty then ([], 0)
  else
    let r := nnTraversalGo D locs orders.length 0 0 [] orders
    if r.1.isEmpty then (r.1, r.2.1)
    else (r.1, r.2.1 + D r.2.2 0)

/-- One courier's accumulator in courier_routes. -/
structure RouteInfo where
  orders : List NNOrder
  current_load : Int
  current_weight : ℚ
deriving DecidableEq

/-- courier_routes as a map from courier id, empty accumulators initially. -/
abbrev RouteMap := String → RouteInfo

/-- All couriers start with an empty load accumulator. -/
def initRouteMap : RouteMap := fun _ => ⟨[], 0, 0⟩

/-- The three feasibility checks of the assignment loop: items, weight, and
the tentative route re-optimized by NN traversal (with return leg) within
the courier's max distance; the third is only evaluated when the first two
hold, which the short-circuit conjunction reproduces. -/
def nnAccepts (D : DistMat) (locs : List (String × Nat)) (c : NNCourier)
    (rm : RouteMap) (o : NNOrder) : Bool :=
  decide ((rm c.id).current_load + ordItems o ≤ courCap c) &&
  decide ((rm c.id).current_weight + ordWeight o ≤ courMaxWeight c) &&
  decide ((optimizeRouteOrder D locs ((rm c.id).orders ++ [o])).2 ≤ courMaxDistance c)

/-- Accepting an order: append it and bump the accumulators. -/
def assignTo (rm : RouteMap) (cid : String) (o : NNOrder) : RouteMap :=
  fun k =>
    if k = cid then
      ⟨(rm cid).orders ++ [o], (rm cid).current_load + ordItems o,
        (rm cid).current_weight + ordWeight o⟩
    else rm k

/-- The while-loop offering one order to couriers round-robin: the courier
cursor advances modulo the fleet size after every attempt, including the
accepting one, and the loop gives up after fleet-size attempts. -/
def tryCouriers (D : DistMat) (locs : List (String × Nat))
    (couriers : List NNCourier) (o : NNOrder) (rm : RouteMap)
    (cursor : Nat) (attempts : Nat) : RouteMap × Nat :=
  if h : attempts < couriers.length then
    let c := couriers.get ⟨cursor % couriers.length, Nat.mod_lt _ (by omega)⟩
    if nnAccepts D locs c rm o then
      (assignTo rm c.id o, (cursor + 1) % couriers.length)
    else
      tryCouriers D locs couriers o rm ((cursor + 1) % couriers.length) (attempts + 1)
  else (rm, cursor)
termination_by couriers.length - attempts

/-- The state (courier_routes, courier_index) after processing a list of
sorted orders. -/
def stateAfter (D : DistMat) (locs : List (String × Nat))
    (couriers : List NNCourier) (pre : List (NNOrder × ℚ)) : RouteMap × Nat :=
  pre.foldl (fun st p => tryCouriers D locs couriers p.1 st.1 st.2 0)
    (initRouteMap, 0)

/-- The whole assignment phase over the sorted orders. -/
def nnAssignAll (D : DistMat) (locs : List (String × Nat))
    (couriers : List NNCourier) (sorted : List (NNOrder × ℚ)) : RouteMap × Nat :=
  stateAfter D locs couriers sorted

/-- Emission of one courier's route when its accumulator is non-empty. -/
def emitStep (D : DistMat) (locs : List (String × Nat)) (depotId : String)
    (rm : RouteMap) (acc : List ProposedRoute) (c : NNCourier) :
    List ProposedRoute :=
  if (rm c.id).orders.isEmpty then acc
  else
    let opt := optimizeRouteOrder D locs (rm c.id).orders
    acc ++ [⟨c.id, depotId, opt.2, (rm c.id).current_load,
      (rm c.id).current_weight,
      opt.1.enum.map (fun p => (⟨p.2.id, (p.1 : Int)⟩ : RawPoint))⟩]

/-- Route emission: every courier with a non-empty accumulator emits one
route whose points follow the NN traversal, sequences 0..k-1 (dict
iteration order equals the courier list under distinct courier ids). -/
def nnEmit (D : DistMat) (locs : List (String × Nat)) (depotId : String)
    (couriers : List NNCourier) (rm : RouteMap) : List ProposedRoute :=
  couriers.foldl (emitStep D locs depotId rm) []

/-- _simple_distribution: the degenerate fallback splitting orders evenly
with no feasibility checks, used when the depot location or every order
location is unusable. -/
def simpleDistribution (depotId : String) (orders : List NNOrder)
    (couriers : List NNCourier) : List ProposedRoute :=
  let opc := max 1 (orders.length / couriers.length)
  couriers.enum.foldl
    (fun acc ic =>
      let st := ic.1 * opc
      let en := min (st + opc) orders.length
      let co := (orders.take en).drop st
      if co.isEmpty then acc
      else
        acc ++ [⟨ic.2.id, depotId, 0, (co.map ordItems).sum,
          (co.map ordWeight).sum,
          co.enum.map (fun p => (⟨p.2.id, (p.1 : Int)⟩ : RawPoint))⟩])
    []

/-- _optimize_with_nearest_neighbor, including the guard of optimize_routes
(empty orders or couriers give []) and the simple-distribution fallbacks:
depotLocValid models whether _create_location_from_dict succeeds on the
depot dict. -/
def nearestNeighborOptimize (D : DistMat) (depotId : String)
    (depotLocValid : Bool) (orders : List NNOrder)
    (couriers : List NNCourier) : List ProposedRoute :=
  if orders.isEmpty || couriers.isEmpty then []
  else if ¬ depotLocValid then simpleDistribution depotId orders couriers
  else
    let locs := buildOrderLocations orders
    if locs.isEmpty then simpleDistribution depotId orders couriers
    else
      nnEmit D locs depotId couriers
        (nnAssignAll D locs couriers (sortedOrders D locs orders)).1

/-- Whether the courier at rotation offset j from the cursor accepts the
order in the current state. -/
def acceptsAt (D : DistMat) (locs : List (String × Nat))
    (couriers : List NNCourier) (o : NNOrder) (rm : RouteMap)
    (cursor : Nat) (j : Nat) : Prop :=
  nnAccepts D locs (couriers.getD ((cursor + j) % couriers.length) default) rm o = true

theorem get_eq_getD {α : Type} [Inhabited α] (l : List α) (i : Nat)
    (h : i < l.length) : l.get ⟨i, h⟩ = l.getD i default := by
  rw [List.getD_eq_getElem?_getD, List.getElem?_eq_getElem h]
  simp

theorem tryCouriers_fail (D : DistMat) (locs : List (String × Nat))
    (couriers : List NNCourier) (o : NNOrder) :
    ∀ (fuel : Nat) (rm : RouteMap) (cursor : Nat),
      fuel ≤ couriers.length →
      (∀ j, j < fuel → ¬ acceptsAt D locs couriers o rm cursor j) →
      tryCouriers D locs couriers o rm cursor (couriers.length - fuel) =
        (rm, if fuel = 0 then cursor else (cursor + fuel) % couriers.length) := by
  intro fuel
  induction fuel with
  | zero =>
    intro rm cursor hle _
    rw [tryCouriers, dif_neg (by omega)]
    simp
  | succ fuel ih =>
    intro rm cursor hle hrej
    have hn : 0 < couriers.length := by omega
    have hatt : couriers.length - (fuel + 1) < couriers.length := by omega
    rw [tryCouriers, dif_pos hatt]
    dsimp only
    rw [get_eq_getD]
    have h0 : ¬ nnAccepts D locs
        (couriers.getD (cursor % couriers.length) default) rm o = true := by
      have := hrej 0 (by omega)
      unfold acceptsAt at this
      simpa using this
    rw [if_neg h0]
    have hstep : couriers.length - (fuel + 1) + 1 = couriers.length - fuel := by
      omega
    rw [hstep]
    have hshift : ∀ j, j < fuel →
        ¬ acceptsAt D locs couriers o rm ((cursor + 1) % couriers.length) j := by
      intro j hj hacc
      apply hrej (j + 1) (by omega)
      unfold acceptsAt at hacc ⊢
      rw [Nat.mod_add_mod] at hacc
      have harith : cursor + 1 + j = cursor + (j + 1) := by ring
      rw [harith] at hacc
      exact hacc
    rw [ih rm ((cursor + 1) % couriers.length) (by omega) hshift]
    cases fuel with
    | zero => simp
    | succ fuel =>
      simp only [Nat.succ_ne_zero, if_false]
      rw [Nat.mod_add_mod]
      have harith : cursor + 1 + (fuel + 1) = cursor + (fuel + 1 + 1) := by ring
      rw [harith]

theorem tryCouriers_succ (D : DistMat) (locs : List (String × Nat))
    (couriers : List NNCourier) (o : NNOrder) :
    ∀ (fuel : Nat) (rm : RouteMap) (cursor : Nat) (j0 : Nat),
      fuel ≤ couriers.length → j0 < fuel →
      acceptsAt D locs couriers o rm cursor j0 →
      (∀ i, i < j0 → ¬ acceptsAt D locs couriers o rm cursor i) →
      tryCouriers D locs couriers o rm cursor (couriers.length - fuel) =
        (assignTo rm
          (couriers.getD ((cursor + j0) % couriers.length) default).id o,
          (cursor + j0 + 1) % couriers.length) := by
  intro fuel
  induction fuel with
  | zero => intro rm cursor j0 _ hj0 _ _; omega
  | succ fuel ih =>
    intro rm cursor j0 hle hj0 hacc hbef
    have hn : 0 < couriers.length := by omega
    have hatt : couriers.length - (fuel + 1) < couriers.length := by omega
    rw [tryCouriers, dif_pos hatt]
    dsimp only
    rw [get_eq_getD]
    cases j0 with
    | zero =>
      have h0 : nnAccepts D locs
          (couriers.getD (cursor % couriers.length) default) rm o = true := by
        unfold acceptsAt at hacc
        simpa using hacc
      rw [if_pos h0]
      have hc : couriers.getD (cursor % couriers.length) default =
          couriers.getD ((cursor + 0) % couriers.length) default := by
        simp
      rw [hc]
    | succ i =>
      have h0 : ¬ nnAccepts D locs
          (couriers.getD (cursor % couriers.length) default) rm o = true := by
        have := hbef 0 (by omega)
        unfold acceptsAt at this
        simpa using this
      rw [if_neg h0]
      have hstep : couriers.length - (fuel + 1) + 1 = couriers.length - fuel := by
        omega
      rw [hstep]
      have hacc' : acceptsAt D locs couriers o rm ((cursor + 1) % couriers.length) i := by
        unfold acceptsAt at hacc ⊢
        rw [Nat.mod_add_mod]
        have harith : cursor + 1 + i = cursor + (i + 1) := by ring
        rw [harith]
        exact hacc
      have hbef' : ∀ k, k < i →
          ¬ acceptsAt D locs couriers o rm ((cursor + 1) % couriers.length) k := by
        intro k hk hx
        apply hbef (k + 1) (by omega)
        unfold acceptsAt at hx ⊢
        rw [Nat.mod_add_mod] at hx
        have harith : cursor + 1 + k = cursor + (k + 1) := by ring
        rw [harith] at hx
        exact hx
      rw [ih rm ((cursor + 1) % couriers.length) i (by omega) (by omega) hacc' hbef']
      rw [Nat.mod_add_mod]
      have hassoc : (cursor + 1) % couriers.length + i + 1 =
          (cursor + 1) % couriers.length + (i + 1) := by ring
      rw [hassoc, Nat.mod_add_mod]
      have h1 : cursor + 1 + i = cursor + (i + 1) := by ring
      have h2 : cursor + 1 + (i + 1) = cursor + (i + 1) + 1 := by ring
      rw [h1, h2]

theorem tryCouriers_ids (D : DistMat) (locs : List (String × Nat))
    (couriers : List NNCourier) (o : NNOrder) :
    ∀ (fuel : Nat) (rm : RouteMap) (cursor : Nat), fuel ≤ couriers.length →
      ∀ (s : String) (x : NNOrder),
        x ∈ ((tryCouriers D locs couriers o rm cursor
          (couriers.length - fuel)).1 s).orders →
        x ∈ (rm s).orders ∨ x = o := by
  intro fuel
  induction fuel with
  | zero =>
    intro rm cursor _ s x hx
    rw [tryCouriers, dif_neg (by omega)] at hx
    exact Or.inl hx
  | succ fuel ih =>
    intro rm cursor hle s x hx
    have hatt : couriers.length - (fuel + 1) < couriers.length := by omega
    rw [tryCouriers, dif_pos hatt] at hx
    dsimp only at hx
    by_cases hb : nnAccepts D locs
        (couriers.get ⟨cursor % couriers.length, Nat.mod_lt _ (by omega)⟩) rm o = true
    · rw [if_pos hb] at hx
      unfold assignTo at hx
      dsimp only at hx
      by_cases hs : s = (couriers.get
          ⟨cursor % couriers.length, Nat.mod_lt _ (by omega)⟩).id
      · rw [if_pos hs] at hx
        rcases List.mem_append.mp hx with h | h
        · rw [hs]
          exact Or.inl h
        · simp only [List.mem_cons, List.not_mem_nil, or_false] at h
          exact Or.inr h
      · rw [if_neg hs] at hx
        exact Or.inl hx
    · rw [if_neg hb] at hx
      have hstep : couriers.length - (fuel + 1) + 1 = couriers.length - fuel := by
        omega
      rw [hstep] at hx
      exact ih rm ((cursor + 1) % couriers.length) (by omega) s x hx

theorem tryCouriers_ids0 (D : DistMat) (locs : List (String × Nat))
    (couriers : List NNCourier) (o : NNOrder) (rm : RouteMap) (cursor : Nat)
    (s : String) (x : NNOrder)
    (hx : x ∈ ((tryCouriers D locs couriers o rm cursor 0).1 s).orders) :
    x ∈ (rm s).orders ∨ x = o := by
  have h := tryCouriers_ids D locs couriers o couriers.length rm cursor le_rfl s x
  rw [Nat.sub_self] at h
  exact h hx

theorem tryCouriers_cursor (D : DistMat) (locs : List (String × Nat))
    (couriers : List NNCourier) (o : NNOrder) :
    ∀ (fuel : Nat) (rm : RouteMap) (cursor : Nat), fuel ≤ couriers.length →
      cursor < couriers.length →
      (tryCouriers D locs couriers o rm cursor (couriers.length - fuel)).2 <
        couriers.length := by
  intro fuel
  induction fuel with
  | zero =>
    intro rm cursor _ hc
    rw [tryCouriers, dif_neg (by omega)]
    exact hc
  | succ fuel ih =>
    intro rm cursor hle hc
    have hn : 0 < couriers.length := by omega
    have hatt : couriers.length - (fuel + 1) < couriers.length := by omega
    rw [tryCouriers, dif_pos hatt]
    dsimp only
    by_cases hb : nnAccepts D locs
        (couriers.get ⟨cursor % couriers.length, Nat.mod_lt _ (by omega)⟩) rm o = true
    · rw [if_pos hb]
      exact Nat.mod_lt _ hn
    · rw [if_neg hb]
      have hstep : couriers.length - (fuel + 1) + 1 = couriers.length - fuel := by
        omega
      rw [hstep]
      exact ih rm ((cursor + 1) % couriers.length) (by omega) (Nat.mod_lt _ hn)

theorem tryCouriers_reject_id (D : DistMat) (locs : List (String × Nat))
    (couriers : List NNCourier) (o : NNOrder) (rm : RouteMap) (cursor : Nat)
    (hne : couriers ≠ []) (hc : cursor < couriers.length)
    (hrej : ∀ j, j < couriers.length → ¬ acceptsAt D locs couriers o rm cursor j) :
    tryCouriers D locs couriers o rm cursor 0 = (rm, cursor) := by
  have h := tryCouriers_fail D locs couriers o couriers.length rm cursor le_rfl hrej
  rw [Nat.sub_self] at h
  rw [h, if_neg (fun h0 => hne (List.length_eq_zero.mp h0))]
  rw [Nat.add_mod_right, Nat.mod_eq_of_lt hc]

theorem stateAfter_cursor (D : DistMat) (locs : List (String × Nat))
    (couriers : List NNCourier) (hne : couriers ≠ []) :
    ∀ (l : List (NNOrder × ℚ)) (st : RouteMap × Nat), st.2 < couriers.length →
      (l.foldl (fun st p => tryCouriers D locs couriers p.1 st.1 st.2 0) st).2 <
        couriers.length := by
  intro l
  induction l with
  | nil => intro st h; exact h
  | cons p ps ih =>
    intro st h
    apply ih
    have hc := tryCouriers_cursor D locs couriers p.1 couriers.length st.1 st.2
      le_rfl h
    rw [Nat.sub_self] at hc
    exact hc

theorem foldSteps_no_id (D : DistMat) (locs : List (String × Nat))
    (couriers : List NNCourier) (oid : String) :
    ∀ (l : List (NNOrder × ℚ)) (st : RouteMap × Nat),
      (∀ s, oid ∉ ((st.1) s).orders.map (fun y => y.id)) →
      (∀ p ∈ l, p.1.id ≠ oid) →
      ∀ s, oid ∉
        (((l.foldl (fun st p => tryCouriers D locs couriers p.1 st.1 st.2 0)
          st).1) s).orders.map (fun y => y.id) := by
  intro l
  induction l with
  | nil => intro st h _ s; exact h s
  | cons p ps ih =>
    intro st h hne s
    apply ih _ _ (fun q hq => hne q (by simp [hq]))
    intro s' hmem
    obtain ⟨x, hx, hxid⟩ := List.mem_map.mp hmem
    rcases tryCouriers_ids0 D locs couriers p.1 st.1 st.2 s' x hx with hold | hnew
    · exact h s' (List.mem_map.mpr ⟨x, hold, hxid⟩)
    · exact hne p (by simp) (by rw [← hxid, hnew])

theorem fnFold_mem (D : DistMat) (locs : List (String × Nat)) (cur : Nat) :
    ∀ (l : List NNOrder) (best : Option (NNOrder × Nat × ℚ)) (t : NNOrder × Nat × ℚ),
      l.foldl (fnStep D locs cur) best = some t → best = some t ∨ t.1 ∈ l := by
  intro l
  induction l with
  | nil => intro best t h; exact Or.inl h
  | cons o os ih =>
    intro best t h
    rcases ih (fnStep D locs cur best o) t h with h1 | h1
    · unfold fnStep at h1
      cases hlk : locs.lookup o.id with
      | none => rw [hlk] at h1; exact Or.inl h1
      | some idx =>
        rw [hlk] at h1
        cases best with
        | none =>
          simp only [Option.some.injEq] at h1
          exact Or.inr (by simp [← h1])
        | some b =>
          dsimp only at h1
          by_cases hlt : D cur idx < b.2.2
          · rw [if_pos hlt] at h1
            simp only [Option.some.injEq] at h1
            exact Or.inr (by simp [← h1])
          · rw [if_neg hlt] at h1
            exact Or.inl h1
    · exact Or.inr (by simp [h1])

theorem traversal_sub (D : DistMat) (locs : List (String × Nat)) :
    ∀ (fuel cur : Nat) (acc : ℚ) (visited unvisited : List NNOrder)
      (x : NNOrder),
      x ∈ (nnTraversalGo D locs fuel cur acc visited unvisited).1 →
      x ∈ visited ∨ x ∈ unvisited := by
  intro fuel
  induction fuel with
  | zero => intro cur acc visited unvisited x hx; exact Or.inl hx
  | succ fuel ih =>
    intro cur acc visited unvisited x hx
    rw [nnTraversalGo] at hx
    cases hfn : findNearest D locs cur unvisited with
    | none => rw [hfn] at hx; exact Or.inl hx
    | some t =>
      obtain ⟨o, idx, dist⟩ := t
      rw [hfn] at hx
      have hmem : o ∈ unvisited := by
        rcases fnFold_mem D locs cur unvisited none (o, idx, dist) hfn with h | h
        · exact absurd h (by simp)
        · exact h
      rcases ih idx (acc + dist) (visited ++ [o]) (unvisited.erase o) x hx
        with h | h
      · rcases List.mem_append.mp h with h2 | h2
        · exact Or.inl h2
        · simp only [List.mem_cons, List.not_mem_nil, or_false] at h2
          exact Or.inr (h2 ▸ hmem)
      · exact Or.inr (List.mem_of_mem_erase h)

theorem optimizeRouteOrder_sub (D : DistMat) (locs : List (String × Nat))
    (orders : List NNOrder) (x : NNOrder)
    (hx : x ∈ (optimizeRouteOrder D locs orders).1) : x ∈ orders := by
  unfold optimizeRouteOrder at hx
  by_cases he : orders.isEmpty
  · rw [if_pos he] at hx
    exact absurd hx (by simp)
  · rw [if_neg he] at hx
    dsimp only at hx
    by_cases hr : (nnTraversalGo D locs orders.length 0 0 [] orders).1.isEmpty
    · rw [if_pos hr] at hx
      rcases traversal_sub D locs orders.length 0 0 [] orders x hx with h | h
      · exact absurd h (by simp)
      · exact h
    · rw [if_neg hr] at hx
      rcases traversal_sub D locs orders.length 0 0 [] orders x hx with h | h
      · exact absurd h (by simp)
      · exact h

theorem nnEmit_mem (D : DistMat) (locs : List (String × Nat)) (depotId : String)
    (rm : RouteMap) :
    ∀ (couriers : List NNCourier) (acc : List ProposedRoute) (r : ProposedRoute),
      r ∈ couriers.foldl (emitStep D locs depotId rm) acc →
      r ∈ acc ∨ ∃ c ∈ couriers,
        r.points = (optimizeRouteOrder D locs (rm c.id).orders).1.enum.map
          (fun p => (⟨p.2.id, (p.1 : Int)⟩ : RawPoint)) := by
  intro couriers
  induction couriers with
  | nil => intro acc r h; exact Or.inl h
  | cons c cs ih =>
    intro acc r h
    rcases ih (emitStep D locs depotId rm acc c) r h with h1 | h1
    · unfold emitStep at h1
      by_cases hemp : ((rm c.id).orders).isEmpty
      · rw [if_pos hemp] at h1
        exact Or.inl h1
      · rw [if_neg hemp] at h1
        dsimp only at h1
        rcases List.mem_append.mp h1 with h2 | h2
        · exact Or.inl h2
        · simp only [List.mem_cons, List.not_mem_nil, or_false] at h2
          exact Or.inr ⟨c, by simp, by rw [h2]⟩
    · obtain ⟨c', hc', hp⟩ := h1
      exact Or.inr ⟨c', by simp [hc'], hp⟩

theorem locsFold_len :
    ∀ (l : List NNOrder) (st : List (String × Nat) × Nat),
      ((l.foldl locStep st).1).length =
        st.1.length + (l.filter (fun o => o.hasLoc)).length := by
  intro l
  induction l with
  | nil => intro st; simp
  | cons o os ih =>
    intro st
    simp only [List.foldl_cons]
    rw [ih]
    unfold locStep
    by_cases h : o.hasLoc
    · rw [if_pos h]
      simp [List.filter_cons, h]
      omega
    · rw [if_neg h]
      simp [List.filter_cons, h]

theorem buildOrderLocations_ne (orders : List NNOrder) (hne : orders ≠ [])
    (hloc : ∀ o ∈ orders, o.hasLoc = true) : buildOrderLocations orders ≠ [] := by
  intro hcon
  have hlen := locsFold_len orders ([], 0)
  unfold buildOrderLocations at hcon
  rw [hcon] at hlen
  rw [List.filter_eq_self.mpr hloc] at hlen
  simp at hlen
  exact hne (List.length_eq_zero.mp hlen.symm)

theorem filterMap_fst (D : DistMat) (locs : List (String × Nat)) :
    ∀ orders : List NNOrder,
      (orders.filterMap (fun o => (locs.lookup o.id).map
        (fun idx => (o, D 0 idx)))).map (fun p => p.1) =
        orders.filter (fun o => (locs.lookup o.id).isSome) := by
  intro orders
  induction orders with
  | nil => rfl
  | cons o os ih =>
    simp only [List.filterMap_cons, List.filter_cons]
    cases hlk : locs.lookup o.id with
    | none => simpa [hlk] using ih
    | some idx => simp [hlk, ih]

theorem sortedOrders_ids_nodup (D : DistMat) (locs : List (String × Nat))
    (orders : List NNOrder) (hnid : (orders.map (fun o => o.id)).Nodup) :
    ((sortedOrders D locs orders).map (fun p => p.1.id)).Nodup := by
  unfold sortedOrders
  have hperm := List.perm_insertionSort (fun a b : NNOrder × ℚ => a.2 ≤ b.2)
    (orders.filterMap (fun o => (locs.lookup o.id).map (fun idx => (o, D 0 idx))))
  rw [List.Perm.nodup_iff (hperm.map (fun p => p.1.id))]
  have hcomp : (orders.filterMap (fun o => (locs.lookup o.id).map
      (fun idx => (o, D 0 idx)))).map (fun p => p.1.id) =
      ((orders.filterMap (fun o => (locs.lookup o.id).map
        (fun idx => (o, D 0 idx)))).map (fun p => p.1)).map (fun o => o.id) := by
    rw [List.map_map]
    rfl
  rw [hcomp, filterMap_fst]
  exact ((List.filter_sublist orders).map (fun o => o.id)).nodup hnid

theorem nearestNeighborOptimize_eq (D : DistMat) (depotId : String)
    (orders : List NNOrder) (couriers : List NNCourier)
    (hords : orders ≠ []) (hcours : couriers ≠ [])
    (hloc : ∀ o ∈ orders, o.hasLoc = true) :
    nearestNeighborOptimize D depotId true orders couriers =
      nnEmit D (buildOrderLocations orders) depotId couriers
        (nnAssignAll D (buildOrderLocations orders) couriers
          (sortedOrders D (buildOrderLocations orders) orders)).1 := by
  unfold nearestNeighborOptimize
  rw [if_neg (by simp [hords, hcours])]
  rw [if_neg (by simp)]
  dsimp only
  rw [if_neg (by simpa using buildOrderLocations_ne orders hords hloc)]

/-- C2. The nearest-neighbor engine, for a fleet and an order set with
usable locations and distinct ids: (i) the processing list is sorted by
ascending depot-to-order distance; (ii) offering one order scans couriers
round-robin from the cursor, the first courier passing all three checks
(items, weight, tentative NN-traversal distance with return leg, bundled in
nnAccepts) accepts the order and the cursor advances past it, while total
rejection leaves the state unchanged apart from the cursor wrapping; and
(iii) an order rejected by every courier at its processing step ends up in
no courier's accumulator and appears in no emitted route. -/
theorem nn_engine_spec (D : DistMat) (depotId : String) (orders : List NNOrder)
    (couriers : List NNCourier)
    (hords : orders ≠ []) (hcours : couriers ≠ [])
    (hloc : ∀ o ∈ orders, o.hasLoc = true)
    (hnid : (orders.map (fun o => o.id)).Nodup) :
    List.Sorted (fun a b : NNOrder × ℚ => a.2 ≤ b.2)
      (sortedOrders D (buildOrderLocations orders) orders) ∧
    (∀ (o : NNOrder) (rm : RouteMap) (cursor : Nat),
      ((∀ j, j < couriers.length →
          ¬ acceptsAt D (buildOrderLocations orders) couriers o rm cursor j) →
        tryCouriers D (buildOrderLocations orders) couriers o rm cursor 0 =
          (rm, (cursor + couriers.length) % couriers.length)) ∧
      (∀ j0, j0 < couriers.length →
        acceptsAt D (buildOrderLocations orders) couriers o rm cursor j0 →
        (∀ i, i < j0 →
          ¬ acceptsAt D (buildOrderLocations orders) couriers o rm cursor i) →
        tryCouriers D (buildOrderLocations orders) couriers o rm cursor 0 =
          (assignTo rm
            (couriers.getD ((cursor + j0) % couriers.length) default).id o,
            (cursor + j0 + 1) % couriers.length))) ∧
    (∀ (pre suf : List (NNOrder × ℚ)) (o : NNOrder) (dq : ℚ),
      sortedOrders D (buildOrderLocations orders) orders = pre ++ (o, dq) :: suf →
      (∀ j, j < couriers.length →
        ¬ acceptsAt D (buildOrderLocations orders) couriers o
          (stateAfter D (buildOrderLocations orders) couriers pre).1
          (stateAfter D (buildOrderLocations orders) couriers pre).2 j) →
      (∀ s : String, o.id ∉
        ((nnAssignAll D (buildOrderLocations orders) couriers
          (sortedOrders D (buildOrderLocations orders) orders)).1 s).orders.map
          (fun y => y.id)) ∧
      ∀ r ∈ nearestNeighborOptimize D depotId true orders couriers,
        o.id ∉ r.points.map (fun p => p.order_id)) := by
  have hn : 0 < couriers.length := List.length_pos.mpr hcours
  refine ⟨?_, ?_, ?_⟩
  · haveI h1 : IsTotal (NNOrder × ℚ) (fun a b => a.2 ≤ b.2) :=
      ⟨fun a b => le_total a.2 b.2⟩
    haveI h2 : IsTrans (NNOrder × ℚ) (fun a b => a.2 ≤ b.2) :=
      ⟨fun _ _ _ hab hbc => le_trans hab hbc⟩
    exact List.sorted_insertionSort _ _
  · intro o rm cursor
    constructor
    · intro hrej
      have h := tryCouriers_fail D (buildOrderLocations orders) couriers o
        couriers.length rm cursor le_rfl hrej
      rw [Nat.sub_self] at h
      rw [h, if_neg (by omega)]
    · intro j0 hj0 hacc hbef
      have h := tryCouriers_succ D (buildOrderLocations orders) couriers o
        couriers.length rm cursor j0 le_rfl hj0 hacc hbef
      rw [Nat.sub_self] at h
      exact h
  · intro pre suf o dq hsplit hrej
    set locs := buildOrderLocations orders with hlocs
    -- distinct ids across the sorted list
    have hids := sortedOrders_ids_nodup D locs orders hnid
    rw [hsplit] at hids
    simp only [List.map_append, List.map_cons] at hids
    have hnodup := List.nodup_append.mp hids
    have hopre : ∀ p ∈ pre, p.1.id ≠ o.id := by
      intro p hp heq
      exact hnodup.2.2 (List.mem_map.mpr ⟨p, hp, rfl⟩) (by simp [heq])
    have hosuf : ∀ p ∈ suf, p.1.id ≠ o.id := by
      intro p hp heq
      have := (List.nodup_cons.mp hnodup.2.1).1
      exact this (heq ▸ List.mem_map.mpr ⟨p, hp, rfl⟩)
    -- no bucket holds o.id before o's step
    have hbefore : ∀ s, o.id ∉
        ((stateAfter D locs couriers pre).1 s).orders.map (fun y => y.id) := by
      intro s
      unfold stateAfter
      exact foldSteps_no_id D locs couriers o.id pre (initRouteMap, 0)
        (by intro s'; simp [initRouteMap]) (fun p hp => hopre p hp) s
    -- o's own step changes nothing
    have hcur : (stateAfter D locs couriers pre).2 < couriers.length := by
      unfold stateAfter
      exact stateAfter_cursor D locs couriers hcours pre (initRouteMap, 0)
        (by simpa using hn)
    have hid : tryCouriers D locs couriers o
        (stateAfter D locs couriers pre).1
        (stateAfter D locs couriers pre).2 0 =
        ((stateAfter D locs couriers pre).1,
          (stateAfter D locs couriers pre).2) := by
      exact tryCouriers_reject_id D locs couriers o _ _ hcours hcur hrej
    -- the final buckets never gain o.id
    have hfinal : ∀ s, o.id ∉
        ((nnAssignAll D locs couriers
          (sortedOrders D locs orders)).1 s).orders.map (fun y => y.id) := by
      intro s
      unfold nnAssignAll stateAfter
      rw [hsplit, List.foldl_append, List.foldl_cons]
      show o.id ∉ ((suf.foldl _
        (tryCouriers D locs couriers o
          (pre.foldl _ (initRouteMap, 0)).1
          (pre.foldl _ (initRouteMap, 0)).2 0)).1 s).orders.map (fun y => y.id)
      unfold stateAfter at hid
      rw [hid]
      exact foldSteps_no_id D locs couriers o.id suf _
        (by intro s'; exact hbefore s') (fun p hp => hosuf p hp) s
    refine ⟨hfinal, ?_⟩
    intro r hr hmem
    rw [nearestNeighborOptimize_eq D depotId orders couriers hords hcours hloc] at hr
    unfold nnEmit at hr
    rcases nnEmit_mem D locs depotId
      (nnAssignAll D locs couriers (sortedOrders D locs orders)).1
      couriers [] r hr with hacc | hex
    · exact absurd hacc (by simp)
    · obtain ⟨c, hc, hpts⟩ := hex
      rw [hpts] at hmem
      rw [List.map_map] at hmem
      have hmem2 : o.id ∈ (optimizeRouteOrder D locs
          ((nnAssignAll D locs couriers
            (sortedOrders D locs orders)).1 c.id).orders).1.map
          (fun x => x.id) := by
        have hcomp : ((fun p : RawPoint => p.order_id) ∘
            (fun p : Nat × NNOrder => (⟨p.2.id, (p.1 : Int)⟩ : RawPoint))) =
            (fun p : Nat × NNOrder => p.2.id) := rfl
        rw [hcomp] at hmem
        have henum : (optimizeRouteOrder D locs
            ((nnAssignAll D locs couriers
              (sortedOrders D locs orders)).1 c.id).orders).1.enum.map
            (fun p => p.2.id) =
            ((optimizeRouteOrder D locs
              ((nnAssignAll D locs couriers
                (sortedOrders D locs orders)).1 c.id).orders).1.enum.map
              Prod.snd).map (fun x => x.id) := by
          rw [List.map_map]
          rfl
        rw [henum, List.enum_map_snd] at hmem
        exact hmem
      obtain ⟨x, hx, hxid⟩ := List.mem_map.mp hmem2
      have hxbucket := optimizeRouteOrder_sub D locs _ x hx
      exact hfinal c.id (List.mem_map.mpr ⟨x, hxbucket, hxid⟩)

/-- Witness for C2 at a one-order one-courier instance with a constant
matrix. -/
theorem nn_engine_spec_witness :
    List.Sorted (fun a b : NNOrder × ℚ => a.2 ≤ b.2)
      (sortedOrders (fun _ _ => 1)
        (buildOrderLocations [⟨"o1", some 1, some 1, true⟩])
        [⟨"o1", some 1, some 1, true⟩]) := by
  exact (nn_engine_spec (fun _ _ => 1) "d" [⟨"o1", some 1, some 1, true⟩]
    [⟨"c1", some 10, some 50, some 50⟩] (by simp) (by simp)
    (by intro o ho; simp at ho; subst ho; rfl) (by simp)).1

end OptRoutes
